import Mathlib

/-!
Verification of the llm-council backend (3-stage LLM council orchestration).

The Python sources under `backend/` are shallowly embedded below:
* JSON values produced by `json.loads` are modelled by the inductive `PyJson`;
  the decoder itself (standard-library code, not part of the repository) is an
  explicit parameter `jsonDecode : String → Option PyJson`, where `none` models
  a `json.JSONDecodeError` (including for the empty string).
* Python dicts used as finite maps are modelled by association lists (ordered,
  first-match lookup) or, for dicts with a fixed key universe such as
  `defaultdict(int)`, by total functions with pointwise update.
* Python floats are modelled by exact rationals `ℚ`; `round(x, n)` is modelled
  by round-half-to-even on the scaled rational, matching Python's rounding mode.
* `async` network calls are replaced by explicit outcome parameters (oracles):
  the embedded functions are the deterministic remainder of the source.
-/

/-- A decoded JSON value (the possible results of Python's `json.loads`). -/
inductive PyJson where
  | null : PyJson
  | bool : Bool → PyJson
  | num : Int → PyJson
  | str : String → PyJson
  | arr : List PyJson → PyJson
  | obj : List (String × PyJson) → PyJson

/-- Python dict lookup (`d[k]` / `d.get(k)`) on an association list: first matching key. -/
def assocFind {β : Type} (k : String) : List (String × β) → Option β
  | [] => none
  | kv :: rest => if kv.1 = k then some kv.2 else assocFind k rest

/-- The check `all(isinstance(label, str) for label in numbered)` from
`parse_ranking_from_text`, returning the underlying strings when it passes. -/
def allStrings : List PyJson → Option (List String)
  | [] => some []
  | j :: rest =>
    match j with
    | PyJson.str s => (allStrings rest).map (fun l => s :: l)
    | _ => none

/-- Embedding of `council.parse_ranking_from_text`.  The raw model output is
represented by its decoding under `jsonDecode` (Python `json.loads`); every
early `return []` of the source is a `[]` branch here.  `set(numbered)` size is
`numbered.dedup.length`, and the Python `set` equality test is `toFinset`
equality. -/
def parse_ranking_from_text (jsonDecode : String → Option PyJson)
    (ranking_text : String) (expected_labels : Option (Finset String)) : List String :=
  match jsonDecode ranking_text with
  | none => []
  | some payload =>
    match payload with
    | PyJson.obj kvs =>
      match assocFind "final_ranking" kvs with
      | some (PyJson.arr elems) =>
        match allStrings elems with
        | none => []
        | some numbered =>
          if numbered.length ≠ numbered.dedup.length then []
          else
            match expected_labels with
            | none => numbered
            | some exp =>
              if numbered.length ≠ exp.card then []
              else if numbered.toFinset ≠ exp then []
              else numbered
      | _ => []
    | _ => []

/-- Modelled from the spec's words (§4.3 Ranking Parser): returns `some` of the
`final_ranking` array exactly when the text is valid JSON denoting an object
whose `final_ranking` key holds a duplicate-free array of strings and, when
`expected_labels` is supplied, the array's length equals its cardinality and the
element set equals it exactly; `none` in every other case. -/
def spec_parse_ok (jsonDecode : String → Option PyJson)
    (ranking_text : String) (expected_labels : Option (Finset String)) :
    Option (List String) :=
  match jsonDecode ranking_text with
  | some (PyJson.obj kvs) =>
    match assocFind "final_ranking" kvs with
    | some (PyJson.arr elems) =>
      match allStrings elems with
      | some labels =>
        if ¬ labels.Nodup then none
        else
          match expected_labels with
          | none => some labels
          | some exp =>
            if labels.length = exp.card ∧ labels.toFinset = exp then some labels
            else none
      | none => none
    | _ => none
  | _ => none

theorem dedup_length_eq_iff {l : List String} : l.dedup.length = l.length ↔ l.Nodup := by
  constructor
  · intro h
    rw [← List.dedup_eq_self]
    exact (List.dedup_sublist l).eq_of_length h
  · intro h
    rw [List.dedup_eq_self.2 h]

/-- Claim C2: for every ranking text and optional expected-label set, the parser
returns the `final_ranking` array unchanged exactly when the text decodes to an
object whose `final_ranking` is a duplicate-free array of strings matching the
expected-label set (when supplied), and the empty list in every other case. -/
theorem parse_ranking_matches_spec (jsonDecode : String → Option PyJson)
    (ranking_text : String) (expected_labels : Option (Finset String)) :
    parse_ranking_from_text jsonDecode ranking_text expected_labels
      = (spec_parse_ok jsonDecode ranking_text expected_labels).getD [] := by
  unfold parse_ranking_from_text spec_parse_ok
  cases jsonDecode ranking_text with
  | none => rfl
  | some payload =>
    cases payload <;> dsimp only <;> try rfl
    case obj kvs =>
      cases hfr : assocFind "final_ranking" kvs with
      | none => rfl
      | some v =>
        cases v <;> dsimp only <;> try rfl
        case arr elems =>
          cases hstr : allStrings elems with
          | none => rfl
          | some labels =>
            dsimp only
            by_cases hnd : labels.Nodup
            · have hlen : ¬ labels.length ≠ labels.dedup.length := by
                simp [(dedup_length_eq_iff.2 hnd)]
              simp only [hlen, if_false, hnd, not_true, if_neg, ite_false]
              cases expected_labels with
              | none => simp
              | some exp =>
                by_cases hc : labels.length = exp.card
                · by_cases hs : labels.toFinset = exp
                  · simp [hc, hs]
                  · simp [hc, hs]
                · simp [hc]
            · have hlen : labels.length ≠ labels.dedup.length := by
                intro h
                exact hnd (dedup_length_eq_iff.1 h.symm)
              simp [hlen, hnd]

/-- Embedding of `council._index_to_alpha_label`'s loop: the bijective base-26
digits of `index`, least-significant first (`divmod(current, 26)`, append
`chr(65 + remainder)`, then `current -= 1` unless the loop exits).  The Python
guard for negative indices is vacuous on `Nat`. -/
def alphaDigits (index : Nat) : List Char :=
  if h : index / 26 = 0 then [Char.ofNat (65 + index % 26)]
  else Char.ofNat (65 + index % 26) :: alphaDigits (index / 26 - 1)
termination_by index
decreasing_by
  have := Nat.div_le_self index 26
  omega

/-- Embedding of `council._index_to_alpha_label`: the digit list is reversed
into a string, exactly as `"".join(reversed(label))`. -/
def indexToAlphaLabel (index : Nat) : String :=
  String.mk (alphaDigits index).reverse

/-- Value of a least-significant-first bijective base-26 digit list; this is a
left inverse of `alphaDigits`, used to prove injectivity of the labels. -/
def alphaVal : List Char → Nat
  | [] => 0
  | [c] => c.toNat - 65
  | c :: rest => (c.toNat - 65) + 26 * (alphaVal rest + 1)

theorem toNat_ofNat_alpha {r : Nat} (h : r < 26) : (Char.ofNat (65 + r)).toNat = 65 + r := by
  interval_cases r <;> decide

theorem alphaDigits_ne_nil (n : Nat) : alphaDigits n ≠ [] := by
  rw [alphaDigits]
  split <;> simp

theorem alphaVal_alphaDigits (n : Nat) : alphaVal (alphaDigits n) = n := by
  induction n using Nat.strong_induction_on with
  | _ n ih =>
    rw [alphaDigits]
    split
    case isTrue h =>
      have hlt : n % 26 < 26 := Nat.mod_lt _ (by omega)
      simp only [alphaVal]
      rw [toNat_ofNat_alpha hlt]
      omega
    case isFalse h =>
      obtain ⟨x, xs, hx⟩ := List.exists_cons_of_ne_nil (alphaDigits_ne_nil (n / 26 - 1))
      have hdiv := Nat.div_le_self n 26
      have hrec : alphaVal (alphaDigits (n / 26 - 1)) = n / 26 - 1 :=
        ih (n / 26 - 1) (by omega)
      rw [hx]
      show (Char.ofNat (65 + n % 26)).toNat - 65 + 26 * (alphaVal (x :: xs) + 1) = n
      rw [← hx, hrec]
      have hlt : n % 26 < 26 := Nat.mod_lt _ (by omega)
      rw [toNat_ofNat_alpha hlt]
      have := Nat.div_add_mod n 26
      omega

theorem alphaDigits_small {n : Nat} (h : n < 26) : alphaDigits n = [Char.ofNat (65 + n)] := by
  rw [alphaDigits, dif_pos (Nat.div_eq_of_lt h), Nat.mod_eq_of_lt h]

theorem alphaDigits_step {n : Nat} (h : 26 ≤ n) :
    alphaDigits n = Char.ofNat (65 + n % 26) :: alphaDigits (n / 26 - 1) := by
  rw [alphaDigits]
  rw [dif_neg]
  intro hz
  have := Nat.div_add_mod n 26
  have := Nat.mod_lt n (show 0 < 26 by omega)
  omega

theorem alphaDigits_injective : Function.Injective alphaDigits := by
  intro a b hab
  have ha := alphaVal_alphaDigits a
  rw [hab, alphaVal_alphaDigits b] at ha
  exact ha.symm

/-- Claim C6: the label-generation function is injective over all indices and
matches the bijective base-26 numeral over A–Z at the spec's sample points. -/
theorem alpha_label_bijective_base26 :
    (∀ i j : Nat, indexToAlphaLabel i = indexToAlphaLabel j → i = j)
      ∧ indexToAlphaLabel 0 = "A" ∧ indexToAlphaLabel 25 = "Z"
      ∧ indexToAlphaLabel 26 = "AA" ∧ indexToAlphaLabel 27 = "AB"
      ∧ indexToAlphaLabel 51 = "AZ" ∧ indexToAlphaLabel 52 = "BA" := by
  refine ⟨fun i j hij => ?_, ?_, ?_, ?_, ?_, ?_, ?_⟩
  · apply alphaDigits_injective
    apply List.reverse_injective
    have : (String.mk (alphaDigits i).reverse).data = (String.mk (alphaDigits j).reverse).data := by
      rw [show String.mk (alphaDigits i).reverse = indexToAlphaLabel i from rfl, hij]
      rfl
    exact this
  · rw [indexToAlphaLabel, alphaDigits_small (by norm_num)]
    decide
  · rw [indexToAlphaLabel, alphaDigits_small (by norm_num)]
    decide
  · rw [indexToAlphaLabel, alphaDigits_step (by norm_num)]
    norm_num
    rw [alphaDigits_small (by norm_num)]
    decide
  · rw [indexToAlphaLabel, alphaDigits_step (by norm_num)]
    norm_num
    rw [alphaDigits_small (by norm_num)]
    decide
  · rw [indexToAlphaLabel, alphaDigits_step (by norm_num)]
    norm_num
    rw [alphaDigits_small (by norm_num)]
    decide
  · rw [indexToAlphaLabel, alphaDigits_step (by norm_num)]
    norm_num
    rw [alphaDigits_small (by norm_num)]
    decide

/-- Witness for claim C6's theorem at a concrete input. -/
theorem alpha_label_bijective_base26_witness : (27 : Nat) = 27 :=
  alpha_label_bijective_base26.1 27 27 rfl

/-- Python `str.endswith` modelled as a suffix test on the character lists. -/
def strEndsWith (s pat : String) : Bool :=
  List.isSuffixOf pat.data s.data

/-- Embedding of `config.apply_online_variant`: append `":online"` for web
search unless the id is empty (`if not model_id`) or already carries the
suffix. -/
def apply_online_variant (model_id : String) : String :=
  if model_id = "" then model_id
  else if strEndsWith model_id ":online" then model_id
  else model_id ++ ":online"

theorem strEndsWith_append (s : String) : strEndsWith (s ++ ":online") ":online" = true := by
  unfold strEndsWith
  rw [List.isSuffixOf_iff_suffix]
  show (":online" : String).data <:+ (s ++ ":online").data
  rw [String.data_append]
  exact List.suffix_append _ _

/-- Claim C10: applying the web-search suffix operation twice yields the same
string as applying it once; suffixing an already-suffixed identifier is a
no-op. -/
theorem apply_online_variant_idempotent (model_id : String) :
    apply_online_variant (apply_online_variant model_id) = apply_online_variant model_id := by
  unfold apply_online_variant
  by_cases h0 : model_id = ""
  · simp [h0]
  · by_cases hs : strEndsWith model_id ":online"
    · simp [h0, hs]
    · simp only [h0, if_false, hs, ite_false]
      have hne : ¬ (model_id ++ ":online" = "") := by
        intro h
        have : (model_id ++ ":online").data = ("" : String).data := by rw [h]
        rw [String.data_append] at this
        simp at this
      simp [hne, strEndsWith_append]

/-- A chat message (`{"role": ..., "content": ...}`). -/
structure Message where
  role : String
  content : String

/-- Embedding of `openrouter.ModelQueryError` (`to_dict` is the identity on
this record, so error dicts and error values share this type). -/
structure ModelQueryError where
  error_type : String
  message : String
  status_code : Option Nat
  model : Option String
deriving DecidableEq

/-- Result of one model query: a success payload (`content` and
`reasoning_details` from the first completion's message) or a typed error. -/
inductive QueryResult where
  | ok : Option PyJson → Option PyJson → QueryResult
  | err : ModelQueryError → QueryResult

/-- Outcome of the network interaction inside `query_model`'s try-block:
`timeout` is `httpx.TimeoutException`; `response status body` is a completed
POST with the given status whose body decodes to `body` (`none` when
`response.json()` raises); `exn msg` is any other exception. -/
inductive Transport where
  | timeout : Transport
  | response : Nat → Option PyJson → Transport
  | exn : String → Transport

/-- The success-path extraction `data["choices"][0]["message"]` followed by the
`.get` calls on the message dict; `none` models the Python exception raised on
any malformed shape (KeyError, IndexError, TypeError, AttributeError), which
the source's catch-all converts to an unknown error. -/
def extract_first_message : PyJson → Option (List (String × PyJson))
  | PyJson.obj kvs =>
    match assocFind "choices" kvs with
    | some (PyJson.arr (c :: _)) =>
      match c with
      | PyJson.obj ckvs =>
        match assocFind "message" ckvs with
        | some (PyJson.obj msg) => some msg
        | _ => none
      | _ => none
    | _ => none
  | _ => none

/-- Embedding of `openrouter.query_model`: the HTTP status dispatch, the
`raise_for_status` branch for remaining non-2xx statuses, the success
extraction, and the exception handlers, all returning values (the source never
lets an exception escape).  Exception messages built from Python exception
objects are abstracted to fixed placeholder strings; the claims only concern
the `error_type` classification and the success payload. -/
def query_model (model : String) (messages : List Message) (timeout : ℚ)
    (t : Transport) : QueryResult :=
  match t with
  | Transport.timeout =>
    QueryResult.err ⟨"timeout", "Request timed out after " ++ toString timeout ++ "s.",
      none, some model⟩
  | Transport.exn msg => QueryResult.err ⟨"unknown", msg, none, some model⟩
  | Transport.response status body =>
    if status = 401 then
      QueryResult.err ⟨"auth", "Invalid API key. Please check your OPENROUTER_API_KEY.",
        some 401, some model⟩
    else if status = 402 then
      QueryResult.err ⟨"payment", "Payment required. Please add credits to your OpenRouter account.",
        some 402, some model⟩
    else if status = 404 then
      QueryResult.err ⟨"not_found", "Model \"" ++ model ++ "\" not found on OpenRouter.",
        some 404, some model⟩
    else if status = 429 then
      QueryResult.err ⟨"rate_limit", "Rate limit exceeded. Please wait before retrying.",
        some 429, some model⟩
    else if 500 ≤ status then
      QueryResult.err ⟨"server", "OpenRouter server error (HTTP " ++ toString status ++ "). Please try again.",
        some status, some model⟩
    else if ¬ (200 ≤ status ∧ status ≤ 299) then
      QueryResult.err ⟨"unknown", "HTTP error: status " ++ toString status,
        some status, some model⟩
    else
      match body with
      | none => QueryResult.err ⟨"unknown", "malformed response body", none, some model⟩
      | some data =>
        match extract_first_message data with
        | none => QueryResult.err ⟨"unknown", "malformed response shape", none, some model⟩
        | some msg =>
          QueryResult.ok (assocFind "content" msg) (assocFind "reasoning_details" msg)

/-- Modelled from the spec's words (§4.1 Model Query Client): the error kind the
spec requires for each transport outcome; `none` means the call must succeed. -/
def spec_error_kind : Transport → Option String
  | Transport.timeout => some "timeout"
  | Transport.exn _ => some "unknown"
  | Transport.response status body =>
    if status = 401 then some "auth"
    else if status = 402 then some "payment"
    else if status = 404 then some "not_found"
    else if status = 429 then some "rate_limit"
    else if 500 ≤ status then some "server"
    else if ¬ (200 ≤ status ∧ status ≤ 299) then some "unknown"
    else
      match body with
      | none => some "unknown"
      | some data => if (extract_first_message data).isSome then none else some "unknown"

/-- The error kind of a query result, `none` on success. -/
def errorTypeOf : QueryResult → Option String
  | QueryResult.ok _ _ => none
  | QueryResult.err e => some e.error_type

/-- Claim C7: `query_model` is a total function of the transport outcome (no
failure path raises), its error classification matches the spec's table exactly
(timeout→timeout, 401→auth, 402→payment, 404→not_found, 429→rate_limit,
≥500→server, other non-2xx or malformed shape→unknown), and a 2xx response with
a well-formed body yields a success carrying the first completion's message
content. -/
theorem query_model_error_classification (model : String) (messages : List Message)
    (timeout : ℚ) (t : Transport) :
    errorTypeOf (query_model model messages timeout t) = spec_error_kind t
      ∧ (∀ status data msg, t = Transport.response status (some data) →
          200 ≤ status → status ≤ 299 → extract_first_message data = some msg →
          query_model model messages timeout t
            = QueryResult.ok (assocFind "content" msg) (assocFind "reasoning_details" msg)) := by
  constructor
  · cases t with
    | timeout => rfl
    | exn m => rfl
    | response status body =>
      unfold query_model spec_error_kind
      dsimp only
      split_ifs <;> try rfl
      cases body with
      | none => rfl
      | some data =>
        dsimp only
        cases hx : extract_first_message data with
        | none => simp [errorTypeOf, hx]
        | some msg => simp [errorTypeOf, hx]
  · intro status data msg ht h2 h3 hx
    subst ht
    unfold query_model
    dsimp only
    rw [if_neg (by omega : ¬ status = 401), if_neg (by omega : ¬ status = 402),
      if_neg (by omega : ¬ status = 404), if_neg (by omega : ¬ status = 429),
      if_neg (by omega : ¬ 500 ≤ status),
      if_neg (not_not_intro ⟨h2, h3⟩)]
    simp only [hx]

/-- Witness for claim C7's theorem: a concrete 2xx response with a well-formed
body yields the success payload. -/
theorem query_model_error_classification_witness :
    query_model "m" [] 120 (Transport.response 200 (some (PyJson.obj
        [("choices", PyJson.arr [PyJson.obj [("message", PyJson.obj
          [("content", PyJson.str "hi")])]])])))
      = QueryResult.ok (some (PyJson.str "hi")) none :=
  (query_model_error_classification "m" [] 120 _).2 200 _
    [("content", PyJson.str "hi")] rfl (by omega) (by omega) rfl

/-- Python dict assignment `d[k] = v`: overwrite in place when the key exists,
else append; insertion order of keys is preserved. -/
def dictInsert {β : Type} (k : String) (v : β) : List (String × β) → List (String × β)
  | [] => [(k, v)]
  | kv :: rest => if kv.1 = k then (k, v) :: rest else kv :: dictInsert k v rest

/-- Python `dict(pairs)`: left-to-right insertion, later pairs overwriting. -/
def dictOfPairs {β : Type} (pairs : List (String × β)) : List (String × β) :=
  pairs.foldl (fun d kv => dictInsert kv.1 kv.2 d) []

/-- Embedding of `openrouter.query_models_parallel`: one `query_model` task per
list element; `asyncio.gather` preserves task order, so the i-th response is the
outcome of the i-th call, abstracted by the oracle `outcome`; the result is
`dict(zip(models, responses))`. -/
def query_models_parallel (models : List String) (outcome : Nat → QueryResult) :
    List (String × QueryResult) :=
  dictOfPairs (models.enum.map (fun im => (im.2, outcome im.1)))

theorem assocFind_dictInsert {β : Type} (m k : String) (v : β) (d : List (String × β)) :
    assocFind m (dictInsert k v d) = if k = m then some v else assocFind m d := by
  induction d with
  | nil => rfl
  | cons kv rest ih =>
    unfold dictInsert
    by_cases hk : kv.1 = k
    · rw [if_pos hk]
      by_cases hm : k = m
      · simp [assocFind, hm]
      · have hkv : ¬ kv.1 = m := fun h => hm (hk.symm.trans h)
        simp [assocFind, hm, hkv]
    · rw [if_neg hk]
      by_cases hm : kv.1 = m
      · have hkm : ¬ k = m := fun h => hk (hm.trans h.symm)
        simp [assocFind, hm, hkm]
      · simp [assocFind, hm, ih]

theorem keys_dictInsert {β : Type} (m k : String) (v : β) (d : List (String × β)) :
    m ∈ (dictInsert k v d).map Prod.fst ↔ m = k ∨ m ∈ d.map Prod.fst := by
  induction d with
  | nil => simp [dictInsert, eq_comm]
  | cons kv rest ih =>
    unfold dictInsert
    by_cases hk : kv.1 = k
    · simp [hk, eq_comm]
      try tauto
    · simp [hk, ih]
      try tauto

theorem nodup_keys_dictInsert {β : Type} (k : String) (v : β) (d : List (String × β))
    (h : (d.map Prod.fst).Nodup) : ((dictInsert k v d).map Prod.fst).Nodup := by
  induction d with
  | nil => simp [dictInsert]
  | cons kv rest ih =>
    unfold dictInsert
    rw [List.map_cons, List.nodup_cons] at h
    by_cases hk : kv.1 = k
    · simp only [hk, if_pos, List.map_cons, List.nodup_cons]
      exact ⟨hk ▸ h.1, h.2⟩
    · simp only [hk, if_neg, ite_false, List.map_cons, List.nodup_cons]
      refine ⟨?_, ih h.2⟩
      rw [keys_dictInsert]
      push_neg
      exact ⟨hk, h.1⟩

theorem nodup_keys_dictOfPairs {β : Type} (pairs : List (String × β)) :
    ((dictOfPairs pairs).map Prod.fst).Nodup := by
  suffices h : ∀ d : List (String × β), (d.map Prod.fst).Nodup →
      ((pairs.foldl (fun d kv => dictInsert kv.1 kv.2 d) d).map Prod.fst).Nodup by
    exact h [] (by simp)
  induction pairs with
  | nil => intro d hd; exact hd
  | cons kv rest ih =>
    intro d hd
    rw [List.foldl_cons]
    exact ih _ (nodup_keys_dictInsert _ _ _ hd)

theorem keys_dictOfPairs {β : Type} (pairs : List (String × β)) (m : String) :
    m ∈ (dictOfPairs pairs).map Prod.fst ↔ m ∈ pairs.map Prod.fst := by
  suffices h : ∀ d : List (String × β),
      (m ∈ ((pairs.foldl (fun d kv => dictInsert kv.1 kv.2 d) d).map Prod.fst)
        ↔ m ∈ d.map Prod.fst ∨ m ∈ pairs.map Prod.fst) by
    rw [dictOfPairs, h []]
    simp
  induction pairs with
  | nil => intro d; simp
  | cons kv rest ih =>
    intro d
    rw [List.foldl_cons, ih, keys_dictInsert]
    simp
    try tauto

theorem assocFind_dictOfPairs {β : Type} (pairs : List (String × β)) (m : String) :
    assocFind m (dictOfPairs pairs)
      = (pairs.reverse.find? (fun kv => kv.1 == m)).map Prod.snd := by
  induction pairs using List.reverseRecOn with
  | nil => rfl
  | append_singleton ps kv ih =>
    rw [dictOfPairs, List.foldl_concat, List.reverse_append]
    show assocFind m (dictInsert kv.1 kv.2 (dictOfPairs ps)) = _
    rw [assocFind_dictInsert, ih]
    simp only [List.reverse_singleton, List.singleton_append]
    by_cases hm : kv.1 = m
    · rw [if_pos hm, List.find?_cons_of_pos _ (by simpa using hm)]
      rfl
    · rw [if_neg hm, List.find?_cons_of_neg _ (by simpa using hm)]

theorem find?_enumFrom_last (l : List String) :
    ∀ (n i : Nat), i < l.length → ∀ x : String, (∀ hi : i < l.length, l[i] = x) →
      x ∉ l.drop (i + 1) →
      ((List.enumFrom n l).reverse).find? (fun im => im.2 == x) = some (n + i, x) := by
  induction l with
  | nil =>
    intro n i hi
    exact absurd hi (by simp)
  | cons y ys ih =>
    intro n i hi x hx hnd
    rw [List.enumFrom_cons, List.reverse_cons, List.find?_append]
    cases i with
    | zero =>
      have hxy : y = x := hx hi
      have hfirst : List.find? (fun im => im.2 == x) (List.enumFrom (n + 1) ys).reverse = none := by
        rw [List.find?_eq_none]
        intro im hmem
        rw [List.mem_reverse] at hmem
        have h2 := List.mem_enumFrom hmem
        have himy : im.2 ∈ ys := by
          obtain ⟨-, h2b, h2c⟩ := h2
          rw [h2c]
          exact List.getElem_mem _
        simp only [List.drop_succ_cons, List.drop_zero] at hnd
        simp only [beq_iff_eq]
        intro hcontra
        exact hnd (hcontra ▸ himy)
      rw [hfirst]
      simp [hxy]
    | succ i =>
      have hi' : i < ys.length := by simpa using Nat.lt_of_succ_lt_succ hi
      have hx' : ∀ hj : i < ys.length, ys[i] = x := by
        intro hj
        have := hx hi
        rwa [List.getElem_cons_succ] at this
      have hnd' : x ∉ ys.drop (i + 1) := by
        simpa using hnd
      have hrec := ih (n + 1) i hi' x hx' hnd'
      rw [hrec]
      show (some ((n + 1 + i, x))).or _ = some (n + (i + 1), x)
      simp only [Option.or_some]
      congr 2
      omega

/-- Claim C9: the parallel fan-out returns exactly one entry per distinct input
model (duplicates collapse to a single surviving entry), and each model's entry
holds the outcome of that model's own call, identified by call index and thus
independent of completion order; for a model with no later duplicate occurrence
the surviving entry is precisely its own call's outcome. -/
theorem query_models_parallel_entries (models : List String) (outcome : Nat → QueryResult) :
    ((query_models_parallel models outcome).map Prod.fst).Nodup
      ∧ (∀ m, m ∈ (query_models_parallel models outcome).map Prod.fst ↔ m ∈ models)
      ∧ (∀ i, ∀ hi : i < models.length, models[i] ∉ models.drop (i + 1) →
          assocFind models[i] (query_models_parallel models outcome) = some (outcome i)) := by
  refine ⟨nodup_keys_dictOfPairs _, ?_, ?_⟩
  · intro m
    rw [query_models_parallel, keys_dictOfPairs, List.map_map]
    show m ∈ models.enum.map (Prod.fst ∘ fun im => (im.2, outcome im.1)) ↔ _
    have hcomp : (Prod.fst ∘ fun im : Nat × String => (im.2, outcome im.1)) = Prod.snd := rfl
    rw [hcomp, List.enum_map_snd]
  · intro i hi hnd
    rw [query_models_parallel, assocFind_dictOfPairs, ← List.map_reverse, List.find?_map]
    have hp : ((fun kv : String × QueryResult => kv.1 == models[i])
        ∘ fun im : Nat × String => (im.2, outcome im.1))
        = fun im : Nat × String => im.2 == models[i] := rfl
    rw [hp, show models.enum = List.enumFrom 0 models from rfl,
      find?_enumFrom_last models 0 i hi models[i] (fun _ => rfl) hnd]
    simp

/-- Witness for claim C9's theorem at a concrete model list. -/
theorem query_models_parallel_entries_witness :
    assocFind "a" (query_models_parallel ["a", "b"]
        (fun _ => QueryResult.err ⟨"timeout", "t", none, none⟩))
      = some (QueryResult.err ⟨"timeout", "t", none, none⟩) :=
  (query_models_parallel_entries ["a", "b"] _).2.2 0 (by decide) (by decide)

/-- One Stage-2 result as consumed by the aggregators: the ranker's model id,
the raw ranking text, and the pre-parsed ranking (`parsed_ranking` is `[]` both
when stage-2 parsing failed and when the key is absent — both falsy). -/
structure Stage2Result where
  model : String
  ranking : String
  parsed_ranking : List String

/-- The expected-label set `set(label_to_model.keys())`. -/
def expectedLabelSet (label_to_model : List (String × String)) : Finset String :=
  (label_to_model.map Prod.fst).toFinset

/-- The ranking a Stage2Result contributes to either aggregator: the pre-parsed
ranking when non-empty (truthy), otherwise the source's fallback strict parse of
the raw ranking text against the expected labels.  (For empty text the source
skips the parse and uses `[]`; decoding the empty string fails, so the fallback
parse returns `[]` there too and the two coincide.) -/
def effectiveRanking (jsonDecode : String → Option PyJson)
    (label_to_model : List (String × String)) (r : Stage2Result) : List String :=
  if r.parsed_ranking ≠ [] then r.parsed_ranking
  else parse_ranking_from_text jsonDecode r.ranking (some (expectedLabelSet label_to_model))

/-- `model_positions[model_name].append(position)` on a `defaultdict(list)`:
append to the entry in place, creating it at the end on first touch (Python
dict insertion order). -/
def appendPos (m : String) (p : Nat) : List (String × List Nat) → List (String × List Nat)
  | [] => [(m, [p])]
  | kv :: rest => if kv.1 = m then (kv.1, kv.2 ++ [p]) :: rest else kv :: appendPos m p rest

/-- The `(model, position)` contributions of one parsed ranking:
`for position, label in enumerate(parsed_ranking, start=1)`, keeping only
labels found in `label_to_model` and resolving them through it. -/
def rankingPositionPairs (label_to_model : List (String × String))
    (parsed : List String) : List (String × Nat) :=
  parsed.enum.filterMap (fun il =>
    match assocFind il.2 label_to_model with
    | some m => some (m, il.1 + 1)
    | none => none)

/-- The loop body of `council.calculate_aggregate_rankings` for one ranker:
skip (`continue`) when the effective parsed ranking is empty, otherwise append
each `(model, position)` contribution to the positions table. -/
def aggStep (jsonDecode : String → Option PyJson)
    (label_to_model : List (String × String))
    (acc : List (String × List Nat)) (r : Stage2Result) : List (String × List Nat) :=
  let parsed := effectiveRanking jsonDecode label_to_model r
  if parsed = [] then acc
  else (rankingPositionPairs label_to_model parsed).foldl
    (fun a mp => appendPos mp.1 mp.2 a) acc

/-- The `model_positions` table of `council.calculate_aggregate_rankings`: fold
every ranker's contributions in order. -/
def aggregatePositions (jsonDecode : String → Option PyJson)
    (stage2_results : List Stage2Result)
    (label_to_model : List (String × String)) : List (String × List Nat) :=
  stage2_results.foldl (aggStep jsonDecode label_to_model) []

/-- Python `round` to an integer: round-half-to-even (banker's rounding). -/
def pyRoundInt (q : ℚ) : ℤ :=
  if Int.fract q < 1/2 then ⌊q⌋
  else if 1/2 < Int.fract q then ⌊q⌋ + 1
  else if ⌊q⌋ % 2 = 0 then ⌊q⌋ else ⌊q⌋ + 1

/-- Python `round(x, n)` on the rational model of floats. -/
def pyRound (q : ℚ) (n : Nat) : ℚ :=
  (pyRoundInt (q * 10 ^ n) : ℚ) / 10 ^ n

/-- One row of the mean-position (aggregate) ranking table. -/
structure AggregateEntry where
  model : String
  average_rank : ℚ
  rankings_count : Nat
  deriving DecidableEq

/-- Embedding of `council.calculate_aggregate_rankings`: build the positions
table, emit one row per entry with a non-empty positions list (`if positions:`)
carrying the 2-decimal rounded mean position and the vote count, then sort
ascending by `average_rank`. -/
def calculate_aggregate_rankings (jsonDecode : String → Option PyJson)
    (stage2_results : List Stage2Result)
    (label_to_model : List (String × String)) : List AggregateEntry :=
  ((aggregatePositions jsonDecode stage2_results label_to_model).filterMap (fun kv =>
    if kv.2 ≠ [] then
      some ⟨kv.1, pyRound ((kv.2.sum : ℚ) / (kv.2.length : ℚ)) 2, kv.2.length⟩
    else none)).mergeSort (fun a b => decide (a.average_rank ≤ b.average_rank))

/-- The positions the spec's words record for model `m`: position `p` (1-based,
1 = best) for every label of every ranker's parsed ranking whose underlying
model (via `label_to_model`) is `m`. -/
def specPositions (jsonDecode : String → Option PyJson)
    (stage2_results : List Stage2Result)
    (label_to_model : List (String × String)) (m : String) : List Nat :=
  stage2_results.flatMap (fun r =>
    (effectiveRanking jsonDecode label_to_model r).enum.filterMap (fun il =>
      if assocFind il.2 label_to_model = some m then some (il.1 + 1) else none))

theorem assocFind_isSome_iff_mem_keys {β : Type} (m : String) (l : List (String × β)) :
    (assocFind m l).isSome ↔ m ∈ l.map Prod.fst := by
  induction l with
  | nil => simp [assocFind]
  | cons kv rest ih =>
    by_cases h : kv.1 = m
    · simp [assocFind, h]
    · simp only [assocFind, h, ite_false, List.map_cons, List.mem_cons, ih]
      constructor
      · intro hmem
        exact Or.inr hmem
      · rintro (hmem | hmem)
        · exact absurd hmem.symm h
        · exact hmem

theorem mem_of_assocFind_eq_some {β : Type} {m : String} {v : β} {l : List (String × β)}
    (h : assocFind m l = some v) : (m, v) ∈ l := by
  induction l with
  | nil => simp [assocFind] at h
  | cons kv rest ih =>
    rw [assocFind] at h
    by_cases hk : kv.1 = m
    · rw [if_pos hk] at h
      have hv : kv.2 = v := by injection h
      have hkv : kv = (m, v) := by
        cases kv
        simp only at hk hv
        rw [hk, hv]
      rw [← hkv]
      exact List.mem_cons_self _ _
    · rw [if_neg hk] at h
      exact List.mem_cons_of_mem _ (ih h)

theorem assocFind_eq_some_of_nodup {β : Type} {k : String} {v : β} {l : List (String × β)}
    (hnd : (l.map Prod.fst).Nodup) (h : (k, v) ∈ l) : assocFind k l = some v := by
  induction l with
  | nil => simp at h
  | cons kv rest ih =>
    rw [List.map_cons, List.nodup_cons] at hnd
    rcases List.mem_cons.1 h with heq | hmem
    · rw [← heq, assocFind, if_pos rfl]
    · have hne : kv.1 ≠ k := by
        intro hk
        exact hnd.1 (hk ▸ (List.mem_map.2 ⟨(k, v), hmem, rfl⟩))
      rw [assocFind, if_neg hne]
      exact ih hnd.2 hmem

theorem assocFind_appendPos (m k : String) (p : Nat) (d : List (String × List Nat)) :
    assocFind m (appendPos k p d)
      = if k = m then some ((assocFind m d).getD [] ++ [p]) else assocFind m d := by
  induction d with
  | nil =>
    by_cases h : k = m <;> simp [appendPos, assocFind, h]
  | cons kv rest ih =>
    unfold appendPos
    by_cases hk : kv.1 = k
    · rw [if_pos hk]
      by_cases hm : k = m
      · simp [assocFind, hk.trans hm, hm, hk]
      · have hkv : ¬ kv.1 = m := fun h => hm (hk.symm.trans h)
        simp [assocFind, hkv, hm]
    · rw [if_neg hk]
      by_cases hm : kv.1 = m
      · have hkm : ¬ k = m := fun h => hk (hm.trans h.symm)
        simp [assocFind, hm, hkm]
      · simp [assocFind, hm, ih]

theorem keys_appendPos (m k : String) (p : Nat) (d : List (String × List Nat)) :
    m ∈ (appendPos k p d).map Prod.fst ↔ m = k ∨ m ∈ d.map Prod.fst := by
  induction d with
  | nil => simp [appendPos, eq_comm]
  | cons kv rest ih =>
    unfold appendPos
    by_cases hk : kv.1 = k
    · simp [hk, eq_comm]
    · simp [hk, ih]
      try tauto

theorem nodup_keys_appendPos (k : String) (p : Nat) (d : List (String × List Nat))
    (h : (d.map Prod.fst).Nodup) : ((appendPos k p d).map Prod.fst).Nodup := by
  induction d with
  | nil => simp [appendPos]
  | cons kv rest ih =>
    unfold appendPos
    rw [List.map_cons, List.nodup_cons] at h
    by_cases hk : kv.1 = k
    · simp only [hk, if_pos, List.map_cons, List.nodup_cons]
      exact ⟨hk ▸ h.1, h.2⟩
    · simp only [hk, if_neg, ite_false, List.map_cons, List.nodup_cons]
      refine ⟨?_, ih h.2⟩
      rw [keys_appendPos]
      push_neg
      exact ⟨hk, h.1⟩

/-- The positions a `(model, position)` pair list contributes to model `m`. -/
def pairsFor (m : String) (pairs : List (String × Nat)) : List Nat :=
  pairs.filterMap (fun mp => if mp.1 = m then some mp.2 else none)

theorem getD_foldl_appendPos (m : String) (pairs : List (String × Nat)) :
    ∀ acc, (assocFind m (pairs.foldl (fun a mp => appendPos mp.1 mp.2 a) acc)).getD []
      = (assocFind m acc).getD [] ++ pairsFor m pairs := by
  induction pairs with
  | nil => simp [pairsFor]
  | cons mp rest ih =>
    intro acc
    rw [List.foldl_cons, ih]
    unfold pairsFor
    rw [List.filterMap_cons]
    by_cases h : mp.1 = m
    · rw [if_pos h, assocFind_appendPos, if_pos h]
      try simp [List.append_assoc]
    · rw [if_neg h, assocFind_appendPos, if_neg h]
      try rfl

theorem isSome_foldl_appendPos (m : String) (pairs : List (String × Nat)) :
    ∀ acc, (assocFind m (pairs.foldl (fun a mp => appendPos mp.1 mp.2 a) acc)).isSome
      ↔ (assocFind m acc).isSome ∨ pairsFor m pairs ≠ [] := by
  induction pairs with
  | nil => simp [pairsFor]
  | cons mp rest ih =>
    intro acc
    rw [List.foldl_cons, ih]
    unfold pairsFor
    rw [List.filterMap_cons]
    by_cases h : mp.1 = m
    · rw [if_pos h, assocFind_appendPos, if_pos h]
      try simp
    · rw [if_neg h, assocFind_appendPos, if_neg h]
      try rfl

theorem nodup_keys_foldl_appendPos (pairs : List (String × Nat)) :
    ∀ acc : List (String × List Nat), (acc.map Prod.fst).Nodup →
      ((pairs.foldl (fun a mp => appendPos mp.1 mp.2 a) acc).map Prod.fst).Nodup := by
  induction pairs with
  | nil => intro acc h; exact h
  | cons mp rest ih =>
    intro acc h
    rw [List.foldl_cons]
    exact ih _ (nodup_keys_appendPos _ _ _ h)

theorem pairsFor_rankingPositionPairs (label_to_model : List (String × String))
    (parsed : List String) (m : String) :
    pairsFor m (rankingPositionPairs label_to_model parsed)
      = parsed.enum.filterMap (fun il =>
          if assocFind il.2 label_to_model = some m then some (il.1 + 1) else none) := by
  unfold pairsFor rankingPositionPairs
  rw [List.filterMap_filterMap]
  congr 1
  funext il
  cases h : assocFind il.2 label_to_model with
  | none => simp [h]
  | some m0 =>
    by_cases hm : m0 = m
    · simp [h, hm]
    · simp [h, hm, Option.bind]

theorem getD_aggregatePositions (jsonDecode : String → Option PyJson)
    (label_to_model : List (String × String)) (m : String)
    (stage2_results : List Stage2Result) :
    ∀ acc, (assocFind m (stage2_results.foldl (aggStep jsonDecode label_to_model) acc)).getD []
      = (assocFind m acc).getD []
        ++ specPositions jsonDecode stage2_results label_to_model m := by
  induction stage2_results with
  | nil =>
    intro acc
    simp [specPositions]
  | cons r rest ih =>
    intro acc
    rw [List.foldl_cons, ih]
    unfold specPositions
    rw [List.flatMap_cons]
    by_cases hp : effectiveRanking jsonDecode label_to_model r = []
    · have hstep : aggStep jsonDecode label_to_model acc r = acc := by
        simp [aggStep, hp]
      rw [hstep, hp]
      try simp [specPositions]
    · have hstep : aggStep jsonDecode label_to_model acc r
        = (rankingPositionPairs label_to_model
            (effectiveRanking jsonDecode label_to_model r)).foldl
          (fun a mp => appendPos mp.1 mp.2 a) acc := by
        simp [aggStep, hp]
      rw [hstep, getD_foldl_appendPos, pairsFor_rankingPositionPairs, List.append_assoc]
      try rfl

theorem isSome_aggregatePositions_fold (jsonDecode : String → Option PyJson)
    (label_to_model : List (String × String)) (m : String)
    (stage2_results : List Stage2Result) :
    ∀ acc, (assocFind m (stage2_results.foldl (aggStep jsonDecode label_to_model) acc)).isSome
      ↔ (assocFind m acc).isSome
        ∨ specPositions jsonDecode stage2_results label_to_model m ≠ [] := by
  induction stage2_results with
  | nil =>
    intro acc
    simp [specPositions]
  | cons r rest ih =>
    intro acc
    rw [List.foldl_cons, ih]
    unfold specPositions
    rw [List.flatMap_cons]
    by_cases hp : effectiveRanking jsonDecode label_to_model r = []
    · have hstep : aggStep jsonDecode label_to_model acc r = acc := by
        simp [aggStep, hp]
      rw [hstep, hp]
      simp [specPositions]
    · have hstep : aggStep jsonDecode label_to_model acc r
        = (rankingPositionPairs label_to_model
            (effectiveRanking jsonDecode label_to_model r)).foldl
          (fun a mp => appendPos mp.1 mp.2 a) acc := by
        simp [aggStep, hp]
      rw [hstep, isSome_foldl_appendPos, pairsFor_rankingPositionPairs]
      show _ ∨ _ ↔ _
      rw [or_assoc]
      constructor
      · rintro (h | h | h)
        · exact Or.inl h
        · refine Or.inr ?_
          intro hcontra
          rw [List.append_eq_nil] at hcontra
          exact h hcontra.1
        · refine Or.inr ?_
          intro hcontra
          rw [List.append_eq_nil] at hcontra
          exact h hcontra.2
      · rintro (h | h)
        · exact Or.inl h
        · by_cases h1 : (effectiveRanking jsonDecode label_to_model r).enum.filterMap
              (fun il => if assocFind il.2 label_to_model = some m then some (il.1 + 1)
                else none) = []
          · refine Or.inr (Or.inr ?_)
            intro hcontra
            exact h (by simp [h1, hcontra])
          · exact Or.inr (Or.inl h1)

theorem nodup_keys_aggregatePositions (jsonDecode : String → Option PyJson)
    (stage2_results : List Stage2Result) (label_to_model : List (String × String)) :
    ((aggregatePositions jsonDecode stage2_results label_to_model).map Prod.fst).Nodup := by
  rw [aggregatePositions]
  have h : ∀ acc : List (String × List Nat), (acc.map Prod.fst).Nodup →
      ((stage2_results.foldl (aggStep jsonDecode label_to_model) acc).map Prod.fst).Nodup := by
    induction stage2_results with
    | nil => intro acc hacc; exact hacc
    | cons r rest ih =>
      intro acc hacc
      rw [List.foldl_cons]
      apply ih
      by_cases hp : effectiveRanking jsonDecode label_to_model r = []
      · have hstep : aggStep jsonDecode label_to_model acc r = acc := by
          simp [aggStep, hp]
        rw [hstep]
        exact hacc
      · have hstep : aggStep jsonDecode label_to_model acc r
          = (rankingPositionPairs label_to_model
              (effectiveRanking jsonDecode label_to_model r)).foldl
            (fun a mp => appendPos mp.1 mp.2 a) acc := by
          simp [aggStep, hp]
        rw [hstep]
        exact nodup_keys_foldl_appendPos _ _ hacc
  exact h [] (by simp)

theorem assocFind_aggregatePositions (jsonDecode : String → Option PyJson)
    (stage2_results : List Stage2Result) (label_to_model : List (String × String))
    (m : String) :
    (assocFind m (aggregatePositions jsonDecode stage2_results label_to_model)).getD []
      = specPositions jsonDecode stage2_results label_to_model m := by
  rw [aggregatePositions, getD_aggregatePositions]
  rfl

theorem isSome_aggregatePositions (jsonDecode : String → Option PyJson)
    (stage2_results : List Stage2Result) (label_to_model : List (String × String))
    (m : String) :
    (assocFind m (aggregatePositions jsonDecode stage2_results label_to_model)).isSome
      ↔ specPositions jsonDecode stage2_results label_to_model m ≠ [] := by
  rw [aggregatePositions, isSome_aggregatePositions_fold]
  simp [assocFind]

theorem filterMap_guard {α β : Type} (p : α → Prop) [DecidablePred p] (f : α → β)
    (l : List α) :
    l.filterMap (fun x => if p x then some (f x) else none)
      = (l.filter (fun x => decide (p x))).map f := by
  induction l with
  | nil => rfl
  | cons x xs ih =>
    by_cases h : p x <;> simp [h, ih]

/-- The aggregate table before sorting (the list comprehension in
`calculate_aggregate_rankings`). -/
def aggUnsorted (jsonDecode : String → Option PyJson)
    (stage2_results : List Stage2Result)
    (label_to_model : List (String × String)) : List AggregateEntry :=
  (aggregatePositions jsonDecode stage2_results label_to_model).filterMap (fun kv =>
    if kv.2 ≠ [] then
      some ⟨kv.1, pyRound ((kv.2.sum : ℚ) / (kv.2.length : ℚ)) 2, kv.2.length⟩
    else none)

theorem calculate_aggregate_eq_sort (jsonDecode : String → Option PyJson)
    (stage2_results : List Stage2Result) (label_to_model : List (String × String)) :
    calculate_aggregate_rankings jsonDecode stage2_results label_to_model
      = (aggUnsorted jsonDecode stage2_results label_to_model).mergeSort
          (fun a b => decide (a.average_rank ≤ b.average_rank)) := rfl

theorem aggUnsorted_eq_map (jsonDecode : String → Option PyJson)
    (stage2_results : List Stage2Result) (label_to_model : List (String × String)) :
    aggUnsorted jsonDecode stage2_results label_to_model
      = ((aggregatePositions jsonDecode stage2_results label_to_model).filter
          (fun kv => decide (kv.2 ≠ []))).map
        (fun kv => (⟨kv.1, pyRound ((kv.2.sum : ℚ) / (kv.2.length : ℚ)) 2,
          kv.2.length⟩ : AggregateEntry)) :=
  filterMap_guard _ _ _

theorem aggregatePositions_entry_val (jsonDecode : String → Option PyJson)
    (stage2_results : List Stage2Result) (label_to_model : List (String × String)) :
    ∀ kv ∈ aggregatePositions jsonDecode stage2_results label_to_model,
      kv.2 = specPositions jsonDecode stage2_results label_to_model kv.1 := by
  intro kv hkv
  obtain ⟨k, v⟩ := kv
  have hfind : assocFind k (aggregatePositions jsonDecode stage2_results label_to_model)
      = some v :=
    assocFind_eq_some_of_nodup
      (nodup_keys_aggregatePositions jsonDecode stage2_results label_to_model) hkv
  have hgd := assocFind_aggregatePositions jsonDecode stage2_results label_to_model k
  rw [hfind] at hgd
  exact ((Option.getD_some ▸ hgd) : v = _)

/-- Claim C3: mean-position aggregation records position p (1 = best) against
the model behind each label of every ranker's parsed ranking; its output has
exactly one entry per model with at least one recorded position (models with
zero recorded positions are omitted), each entry's average rank is the mean of
that model's recorded positions rounded to 2 decimal places with its vote
count, and the output is sorted ascending by average rank. -/
theorem aggregate_rankings_characterization (jsonDecode : String → Option PyJson)
    (stage2_results : List Stage2Result) (label_to_model : List (String × String)) :
    (((calculate_aggregate_rankings jsonDecode stage2_results label_to_model).map
        AggregateEntry.model).Nodup)
      ∧ (∀ m, m ∈ (calculate_aggregate_rankings jsonDecode stage2_results
              label_to_model).map AggregateEntry.model
          ↔ specPositions jsonDecode stage2_results label_to_model m ≠ [])
      ∧ (∀ e ∈ calculate_aggregate_rankings jsonDecode stage2_results label_to_model,
          e.average_rank = pyRound
              (((specPositions jsonDecode stage2_results label_to_model e.model).sum : ℚ)
                / ((specPositions jsonDecode stage2_results label_to_model
                    e.model).length : ℚ)) 2
            ∧ e.rankings_count
              = (specPositions jsonDecode stage2_results label_to_model e.model).length)
      ∧ (calculate_aggregate_rankings jsonDecode stage2_results label_to_model).Pairwise
          (fun a b => a.average_rank ≤ b.average_rank) := by
  have hndU : ((aggUnsorted jsonDecode stage2_results label_to_model).map
      AggregateEntry.model).Nodup := by
    rw [aggUnsorted_eq_map, List.map_map]
    refine List.Nodup.sublist ?_
      (nodup_keys_aggregatePositions jsonDecode stage2_results label_to_model)
    exact List.Sublist.map Prod.fst (List.filter_sublist _)
  have hmemU : ∀ m, m ∈ (aggUnsorted jsonDecode stage2_results label_to_model).map
      AggregateEntry.model
      ↔ specPositions jsonDecode stage2_results label_to_model m ≠ [] := by
    intro m
    rw [aggUnsorted_eq_map, List.map_map]
    constructor
    · intro hmem
      rw [List.mem_map] at hmem
      obtain ⟨kv, hkv, hkm⟩ := hmem
      rw [List.mem_filter] at hkv
      have h2 := aggregatePositions_entry_val jsonDecode stage2_results label_to_model
        kv hkv.1
      have hne : kv.2 ≠ [] := by simpa using hkv.2
      have hm : kv.1 = m := hkm
      rw [← hm, ← h2]
      exact hne
    · intro hne
      have hsome := (isSome_aggregatePositions jsonDecode stage2_results
        label_to_model m).2 hne
      rw [Option.isSome_iff_exists] at hsome
      obtain ⟨v, hv⟩ := hsome
      have hmemA := mem_of_assocFind_eq_some hv
      have hval : v = specPositions jsonDecode stage2_results label_to_model m := by
        have hgd := assocFind_aggregatePositions jsonDecode stage2_results
          label_to_model m
        rw [hv] at hgd
        exact ((Option.getD_some ▸ hgd) : v = _)
      rw [List.mem_map]
      refine ⟨(m, v), ?_, rfl⟩
      rw [List.mem_filter]
      refine ⟨hmemA, ?_⟩
      simp only [decide_eq_true_eq]
      rw [hval]
      exact hne
  have hvalU : ∀ e ∈ aggUnsorted jsonDecode stage2_results label_to_model,
      e.average_rank = pyRound
          (((specPositions jsonDecode stage2_results label_to_model e.model).sum : ℚ)
            / ((specPositions jsonDecode stage2_results label_to_model
                e.model).length : ℚ)) 2
        ∧ e.rankings_count
          = (specPositions jsonDecode stage2_results label_to_model e.model).length := by
    intro e he
    rw [aggUnsorted_eq_map, List.mem_map] at he
    obtain ⟨kv, hkv, rfl⟩ := he
    rw [List.mem_filter] at hkv
    have h2 := aggregatePositions_entry_val jsonDecode stage2_results label_to_model
      kv hkv.1
    constructor
    · show pyRound ((kv.2.sum : ℚ) / (kv.2.length : ℚ)) 2 = _
      rw [h2]
    · show kv.2.length = _
      rw [h2]
  refine ⟨?_, ?_, ?_, ?_⟩
  · rw [calculate_aggregate_eq_sort]
    exact (List.Perm.map AggregateEntry.model (List.mergeSort_perm _ _)).nodup_iff.2 hndU
  · intro m
    rw [calculate_aggregate_eq_sort,
      (List.Perm.map AggregateEntry.model (List.mergeSort_perm _ _)).mem_iff]
    exact hmemU m
  · intro e he
    rw [calculate_aggregate_eq_sort, List.mem_mergeSort] at he
    exact hvalU e he
  · rw [calculate_aggregate_eq_sort]
    have htrans : ∀ a b c : AggregateEntry,
        decide (a.average_rank ≤ b.average_rank) = true →
        decide (b.average_rank ≤ c.average_rank) = true →
        decide (a.average_rank ≤ c.average_rank) = true := by
      intro a b c hab hbc
      simp only [decide_eq_true_eq] at hab hbc ⊢
      exact le_trans hab hbc
    have htotal : ∀ a b : AggregateEntry,
        (decide (a.average_rank ≤ b.average_rank)
          || decide (b.average_rank ≤ a.average_rank)) = true := by
      intro a b
      simp [le_total]
    exact (List.sorted_mergeSort htrans htotal _).imp (fun h => by simpa using h)

/-- Python string `<`: lexicographic comparison on code points. -/
def charListLt : List Char → List Char → Bool
  | [], [] => false
  | [], _ :: _ => true
  | _ :: _, [] => false
  | a :: as, b :: bs =>
    if a.toNat < b.toNat then true
    else if b.toNat < a.toNat then false
    else charListLt as bs

/-- Python `str.__lt__` on the character lists (`model_a > model_b` in the
source is `pyStrLt model_b model_a`). -/
def pyStrLt (a b : String) : Bool :=
  charListLt a.data b.data

theorem charListLt_asymm : ∀ l m : List Char, charListLt l m = true → charListLt m l = false
  | [], [], h => by simp [charListLt] at h
  | [], _ :: _, _ => by simp [charListLt]
  | _ :: _, [], h => by simp [charListLt] at h
  | a :: as, b :: bs, h => by
    rw [charListLt] at h ⊢
    by_cases h1 : a.toNat < b.toNat
    · rw [if_neg (by omega), if_pos h1]
    · rw [if_neg h1] at h
      by_cases h2 : b.toNat < a.toNat
      · rw [if_pos h2] at h
        exact absurd h (by simp)
      · rw [if_neg h2] at h
        rw [if_neg h2, if_neg h1]
        exact charListLt_asymm as bs h

theorem charListLt_connex : ∀ l m : List Char, charListLt l m = false → charListLt m l = false → l = m
  | [], [], _, _ => rfl
  | [], _ :: _, h, _ => by simp [charListLt] at h
  | _ :: _, [], _, h => by simp [charListLt] at h
  | a :: as, b :: bs, h, h2 => by
    rw [charListLt] at h h2
    by_cases h1 : a.toNat < b.toNat
    · rw [if_pos h1] at h
      exact absurd h (by simp)
    · rw [if_neg h1] at h
      by_cases h3 : b.toNat < a.toNat
      · rw [if_pos h3] at h2
        exact absurd h2 (by simp)
      · rw [if_neg h3] at h
        rw [if_neg h3, if_neg h1] at h2
        have hab : a = b := Char.ext (UInt32.ext (by
          show a.toNat = b.toNat
          omega))
        rw [hab, charListLt_connex as bs h h2]

theorem pyStrLt_asymm {a b : String} (h : pyStrLt a b = true) : pyStrLt b a = false :=
  charListLt_asymm _ _ h

theorem pyStrLt_connex {a b : String} (h1 : pyStrLt a b = false) (h2 : pyStrLt b a = false) :
    a = b :=
  String.ext (charListLt_connex _ _ h1 h2)

/-- The pair-key normalization of `calculate_tournament_rankings`
(`if model_a > model_b: model_a, model_b = model_b, model_a`). -/
def normPair (ab : String × String) : String × String :=
  if pyStrLt ab.2 ab.1 then (ab.2, ab.1) else ab

/-- One step of the per-ranker `model_positions` loop
(`model_positions[model_name] = position`, labels missing from
`label_to_model` skipped). -/
def tposStep (label_to_model : List (String × String))
    (acc : List (String × Nat)) (il : Nat × String) : List (String × Nat) :=
  match assocFind il.2 label_to_model with
  | some m => dictInsert m il.1 acc
  | none => acc

/-- The per-ranker `model_positions` dict of `calculate_tournament_rankings`:
0-based positions from `enumerate(parsed_ranking)`; a later label for the same
model overwrites the earlier position. -/
def tournamentPositions (label_to_model : List (String × String))
    (parsed : List String) : List (String × Nat) :=
  parsed.enum.foldl (tposStep label_to_model) []

/-- The `i < j` index pairs of a list, in loop order (the nested
`for i in range(n); for j in range(i+1, n)` iteration). -/
def allPairs {α : Type} : List α → List (α × α)
  | [] => []
  | x :: xs => xs.map (fun y => (x, y)) ++ allPairs xs

/-- The loop body deciding which `pairwise_wins` key one ranked pair
increments: normalize the pair ordering (positions swapped along), then compare
positions; `none` models the dead equal-positions branch. -/
def pairVote (mp : List (String × Nat)) (ab : String × String) :
    Option (String × String × Bool) :=
  let pa := (assocFind ab.1 mp).getD 0
  let pb := (assocFind ab.2 mp).getD 0
  let n := normPair ab
  let qa := if pyStrLt ab.2 ab.1 then pb else pa
  let qb := if pyStrLt ab.2 ab.1 then pa else pb
  if qa < qb then some (n.1, n.2, true)
  else if qb < qa then some (n.1, n.2, false)
  else none

/-- The `pairwise_wins` keys one ranker increments (empty for an empty
effective ranking — the `continue`). -/
def rankerVotes (jsonDecode : String → Option PyJson)
    (label_to_model : List (String × String)) (r : Stage2Result) :
    List (String × String × Bool) :=
  let parsed := effectiveRanking jsonDecode label_to_model r
  if parsed = [] then []
  else
    let mp := tournamentPositions label_to_model parsed
    (allPairs (mp.map Prod.fst)).filterMap (pairVote mp)

/-- Increment of a `defaultdict(int)` entry, as a pointwise function update. -/
def bumpKey (k : String × String × Bool) (w : String × String × Bool → Nat) :
    String × String × Bool → Nat :=
  fun k2 => if k2 = k then w k + 1 else w k2

/-- The `pairwise_wins` table of `calculate_tournament_rankings`: a
`defaultdict(int)` modelled as the total function obtained by folding every
ranker's increments over the all-zero table. -/
def pairwiseWins (jsonDecode : String → Option PyJson)
    (stage2_results : List Stage2Result)
    (label_to_model : List (String × String)) : String × String × Bool → Nat :=
  stage2_results.foldl (fun w r =>
    (rankerVotes jsonDecode label_to_model r).foldl (fun w k => bumpKey k w) w)
    (fun _ => 0)

/-- One model's running `model_stats` record. -/
structure TStats where
  wins : ℚ
  losses : ℚ
  ties : ℚ

/-- `model_stats[x]["wins"] += 1` as a pointwise update. -/
def bumpWins (x : String) (st : String → TStats) : String → TStats :=
  fun m => if m = x then ⟨(st x).wins + 1, (st x).losses, (st x).ties⟩ else st m

/-- `model_stats[x]["losses"] += 1` as a pointwise update. -/
def bumpLosses (x : String) (st : String → TStats) : String → TStats :=
  fun m => if m = x then ⟨(st x).wins, (st x).losses + 1, (st x).ties⟩ else st m

/-- `model_stats[x]["ties"] += 1` as a pointwise update. -/
def bumpTies (x : String) (st : String → TStats) : String → TStats :=
  fun m => if m = x then ⟨(st x).wins, (st x).losses, (st x).ties + 1⟩ else st m

/-- The match-decision body for one unordered model pair: compare the two
sub-win tallies and award a match win/loss, or a tie when they are equal and at
least one is positive, in the source's update order. -/
def statsStep (w : String × String × Bool → Nat)
    (st : String → TStats) (ab : String × String) : String → TStats :=
  let n := normPair ab
  let a_wins := w (n.1, n.2, true)
  let b_wins := w (n.1, n.2, false)
  if b_wins < a_wins then bumpLosses n.2 (bumpWins n.1 st)
  else if a_wins < b_wins then bumpLosses n.1 (bumpWins n.2 st)
  else if 0 < a_wins ∨ 0 < b_wins then bumpTies n.2 (bumpTies n.1 st)
  else st

/-- The stats loop over all `i < j` model pairs, with the `processed_pairs`
guard set. -/
def statsFold (w : String × String × Bool → Nat) :
    List (String × String) → List (String × String) → (String → TStats) →
      (String → TStats)
  | [], _, st => st
  | ab :: rest, processed, st =>
    if normPair ab ∈ processed then statsFold w rest processed st
    else statsFold w rest (normPair ab :: processed) (statsStep w st ab)

/-- One row of the tournament ranking table. -/
structure TournamentEntry where
  model : String
  wins : ℚ
  losses : ℚ
  ties : ℚ
  win_percentage : ℚ
  total_matchups : ℤ
  deriving DecidableEq

/-- Embedding of `council.calculate_tournament_rankings`.  The model universe is
`list(set(label_to_model.values()))`; Python's set iteration order is
unspecified, modelled here as first-occurrence `dedup` (no claim depends on
that order).  Fewer than two models short-circuits to all-zero rows; otherwise
tally `pairwise_wins`, decide each unordered pair into `model_stats`, build the
rows (`win_percentage` is `(wins + 0.5*ties)/total` rounded to 3 decimals, or
`0.0` for zero matchups; `int(total_matchups)` truncates the whole number), and
sort by the key `(-win_percentage, losses)`. -/
def calculate_tournament_rankings (jsonDecode : String → Option PyJson)
    (stage2_results : List Stage2Result)
    (label_to_model : List (String × String)) : List TournamentEntry :=
  let models := (label_to_model.map Prod.snd).dedup
  if models.length < 2 then
    models.map (fun m => ⟨m, 0, 0, 0, 0, 0⟩)
  else
    let w := pairwiseWins jsonDecode stage2_results label_to_model
    let st := statsFold w (allPairs models) [] (fun _ => ⟨0, 0, 0⟩)
    let results := models.map (fun m =>
      let total := (st m).wins + (st m).losses + (st m).ties
      (⟨m, (st m).wins, (st m).losses, (st m).ties,
        if 0 < total then pyRound (((st m).wins + 0.5 * (st m).ties) / total) 3 else 0,
        ⌊total⌋⟩ : TournamentEntry))
    results.mergeSort (fun x y =>
      decide (y.win_percentage < x.win_percentage
        ∨ (x.win_percentage = y.win_percentage ∧ x.losses ≤ y.losses)))

/-- The label a model was shown under: the key of `label_to_model` mapping to
it (unique when the mapping is injective, as the pipeline guarantees). -/
def labelFor (label_to_model : List (String × String)) (m : String) :
    Option String :=
  (label_to_model.find? (fun kv => kv.2 == m)).map Prod.fst

/-- Decides whether one ranker credits a sub-win to `x` over `y`, following the
spec's words: the ranking contains both models' labels and `x`'s label appears
at the earlier position. -/
def subWinsPred (jsonDecode : String → Option PyJson)
    (label_to_model : List (String × String)) (x y : String)
    (r : Stage2Result) : Bool :=
  match labelFor label_to_model x, labelFor label_to_model y with
  | some lx, some ly =>
    decide (lx ∈ effectiveRanking jsonDecode label_to_model r
      ∧ ly ∈ effectiveRanking jsonDecode label_to_model r
      ∧ (effectiveRanking jsonDecode label_to_model r).indexOf lx
        < (effectiveRanking jsonDecode label_to_model r).indexOf ly)
  | _, _ => false

/-- The spec's pairwise sub-win count: how many rankers preferred `x` over
`y`. -/
def subWins (jsonDecode : String → Option PyJson)
    (stage2_results : List Stage2Result)
    (label_to_model : List (String × String)) (x y : String) : Nat :=
  stage2_results.countP (subWinsPred jsonDecode label_to_model x y)

/-- The spec's match-win count for model `m`: opponents in the model universe
beaten by strictly more sub-wins. -/
def specWins (jsonDecode : String → Option PyJson)
    (stage2_results : List Stage2Result)
    (label_to_model : List (String × String)) (m : String) : Nat :=
  (((label_to_model.map Prod.snd).dedup).filter (fun o => decide (o ≠ m))).countP
    (fun o => decide (subWins jsonDecode stage2_results label_to_model o m
      < subWins jsonDecode stage2_results label_to_model m o))

/-- The spec's match-loss count for model `m`. -/
def specLosses (jsonDecode : String → Option PyJson)
    (stage2_results : List Stage2Result)
    (label_to_model : List (String × String)) (m : String) : Nat :=
  (((label_to_model.map Prod.snd).dedup).filter (fun o => decide (o ≠ m))).countP
    (fun o => decide (subWins jsonDecode stage2_results label_to_model m o
      < subWins jsonDecode stage2_results label_to_model o m))

/-- The spec's match-tie count for model `m`: opponents with equal sub-win
counts where at least one ranker expressed a preference. -/
def specTies (jsonDecode : String → Option PyJson)
    (stage2_results : List Stage2Result)
    (label_to_model : List (String × String)) (m : String) : Nat :=
  (((label_to_model.map Prod.snd).dedup).filter (fun o => decide (o ≠ m))).countP
    (fun o => decide (subWins jsonDecode stage2_results label_to_model m o
        = subWins jsonDecode stage2_results label_to_model o m
      ∧ (0 < subWins jsonDecode stage2_results label_to_model m o
        ∨ 0 < subWins jsonDecode stage2_results label_to_model o m)))

theorem foldl_bumpKey (ks : List (String × String × Bool)) :
    ∀ (w : String × String × Bool → Nat) (k),
      (ks.foldl (fun w k2 => bumpKey k2 w) w) k
        = w k + ks.countP (fun x => decide (x = k)) := by
  induction ks with
  | nil => intro w k; simp
  | cons k2 rest ih =>
    intro w k
    rw [List.foldl_cons, ih, List.countP_cons]
    by_cases h : k = k2
    · subst h
      simp [bumpKey]
      omega
    · have h2 : ¬ (k2 = k) := fun hh => h hh.symm
      simp [bumpKey, h, h2]

theorem pairwiseWins_count (jsonDecode : String → Option PyJson)
    (stage2_results : List Stage2Result) (label_to_model : List (String × String))
    (k : String × String × Bool) :
    pairwiseWins jsonDecode stage2_results label_to_model k
      = (stage2_results.map (fun r =>
          (rankerVotes jsonDecode label_to_model r).countP
            (fun x => decide (x = k)))).sum := by
  rw [pairwiseWins]
  have h : ∀ (w : String × String × Bool → Nat),
      (stage2_results.foldl (fun w r =>
        (rankerVotes jsonDecode label_to_model r).foldl (fun w k => bumpKey k w) w) w) k
      = w k + (stage2_results.map (fun r =>
          (rankerVotes jsonDecode label_to_model r).countP
            (fun x => decide (x = k)))).sum := by
    induction stage2_results with
    | nil => intro w; simp
    | cons r rest ih =>
      intro w
      rw [List.foldl_cons, ih, foldl_bumpKey, List.map_cons, List.sum_cons]
      omega
  rw [h]
  simp

theorem countP_filterMap_eq {α β : Type} [DecidableEq β] (f : α → Option β)
    (l : List α) (k : β) :
    (l.filterMap f).countP (fun x => decide (x = k))
      = l.countP (fun x => decide (f x = some k)) := by
  induction l with
  | nil => rfl
  | cons x xs ih =>
    rw [List.filterMap_cons]
    cases hf : f x with
    | none => simp [List.countP_cons, hf, ih]
    | some b => simp [List.countP_cons, hf, ih]

theorem sum_map_indicator {α : Type} (p : α → Bool) (l : List α) :
    (l.map (fun x => if p x then 1 else 0)).sum = l.countP p := by
  induction l with
  | nil => rfl
  | cons x xs ih =>
    rw [List.map_cons, List.sum_cons, List.countP_cons, ih]
    by_cases h : p x <;> simp [h] <;> omega

theorem countP_allPairs_pair {α : Type} [DecidableEq α] (A B : α) (hne : A ≠ B) :
    ∀ l : List α, l.Nodup →
      (allPairs l).countP (fun ab => decide (ab = (A, B) ∨ ab = (B, A)))
        = if A ∈ l ∧ B ∈ l then 1 else 0 := by
  intro l
  induction l with
  | nil => intro _; simp [allPairs]
  | cons x xs ih =>
    intro hnd
    rw [List.nodup_cons] at hnd
    rw [allPairs, List.countP_append, List.countP_map, ih hnd.2]
    by_cases hx : x = A
    · subst hx
      have hmap : ((fun ab => decide (ab = (x, B) ∨ ab = (B, x)))
          ∘ fun y => (x, y)) = fun y => decide (y = B) := by
        funext y
        simp only [Function.comp_apply, decide_eq_decide]
        constructor
        · rintro (h | h)
          · exact congrArg Prod.snd h
          · exact absurd (congrArg Prod.fst h) hne
        · intro h
          rw [h]
          exact Or.inl rfl
      rw [hmap]
      have hBnotx : ¬ (x ∈ xs ∧ B ∈ xs) := fun h => hnd.1 h.1
      rw [if_neg hBnotx]
      by_cases hB : B ∈ xs
      · have hone : xs.countP (fun y => decide (y = B)) = 1 := by
          have h1 : xs.countP (fun y => decide (y = B)) = xs.count B := by
            rw [List.count_eq_countP]
            apply List.countP_congr
            intro y hy
            by_cases h : y = B <;> simp [h]
          rw [h1]
          exact List.count_eq_one_of_mem hnd.2 hB
        rw [hone]
        simp [hB]
      · have hzero : xs.countP (fun y => decide (y = B)) = 0 := by
          rw [List.countP_eq_zero]
          intro y hy
          simp only [decide_eq_true_eq]
          intro hyB
          exact hB (hyB ▸ hy)
        rw [hzero]
        simp [hB, Ne.symm hne]
    · by_cases hx2 : x = B
      · subst hx2
        have hmap : ((fun ab => decide (ab = (A, x) ∨ ab = (x, A)))
            ∘ fun y => (x, y)) = fun y => decide (y = A) := by
          funext y
          simp only [Function.comp_apply, decide_eq_decide]
          constructor
          · rintro (h | h)
            · exact absurd (congrArg Prod.fst h) hx
            · exact congrArg Prod.snd h
          · intro h
            rw [h]
            exact Or.inr rfl
        rw [hmap]
        have hAnotx : ¬ (A ∈ xs ∧ x ∈ xs) := fun h => hnd.1 h.2
        rw [if_neg hAnotx]
        by_cases hA : A ∈ xs
        · have hone : xs.countP (fun y => decide (y = A)) = 1 := by
            have h1 : xs.countP (fun y => decide (y = A)) = xs.count A := by
              rw [List.count_eq_countP]
              apply List.countP_congr
              intro y hy
              by_cases h : y = A <;> simp [h]
            rw [h1]
            exact List.count_eq_one_of_mem hnd.2 hA
          rw [hone]
          simp [hA]
        · have hzero : xs.countP (fun y => decide (y = A)) = 0 := by
            rw [List.countP_eq_zero]
            intro y hy
            simp only [decide_eq_true_eq]
            intro hyA
            exact hA (hyA ▸ hy)
          rw [hzero]
          simp [hA, Ne.symm hx]
      · have hmap : xs.countP ((fun ab => decide (ab = (A, B) ∨ ab = (B, A)))
            ∘ fun y => (x, y)) = 0 := by
          rw [List.countP_eq_zero]
          intro y hy
          simp only [Function.comp_apply, decide_eq_true_eq]
          rintro (h | h)
          · exact hx (congrArg Prod.fst h)
          · exact hx2 (congrArg Prod.fst h)
        rw [hmap]
        have hmem : (A ∈ x :: xs ∧ B ∈ x :: xs) ↔ (A ∈ xs ∧ B ∈ xs) := by
          simp [List.mem_cons, eq_comm, Ne.symm hx, Ne.symm hx2]
        by_cases hAB2 : A ∈ xs ∧ B ∈ xs
        · rw [if_pos hAB2, if_pos (hmem.2 hAB2)]
        · rw [if_neg hAB2, if_neg (fun h => hAB2 (hmem.1 h))]

/-- The position comparison of one already-normalized pair (proof helper). -/
def pairVoteSimple (mp : List (String × Nat)) (x y : String) :
    Option (String × String × Bool) :=
  if (assocFind x mp).getD 0 < (assocFind y mp).getD 0 then some (x, y, true)
  else if (assocFind y mp).getD 0 < (assocFind x mp).getD 0 then some (x, y, false)
  else none

theorem pairVote_eq_simple (mp : List (String × Nat)) (a0 b0 : String) :
    pairVote mp (a0, b0)
      = if pyStrLt b0 a0 = true then pairVoteSimple mp b0 a0
        else pairVoteSimple mp a0 b0 := by
  unfold pairVote pairVoteSimple normPair
  by_cases hswap : pyStrLt b0 a0 = true <;> simp [hswap]

theorem pairVoteSimple_eq_some_iff (mp : List (String × Nat)) (x y A B : String)
    (tag : Bool) :
    pairVoteSimple mp x y = some (A, B, tag)
      ↔ (x = A ∧ y = B
        ∧ (if tag then (assocFind A mp).getD 0 < (assocFind B mp).getD 0
            else (assocFind B mp).getD 0 < (assocFind A mp).getD 0)) := by
  unfold pairVoteSimple
  by_cases h1 : (assocFind x mp).getD 0 < (assocFind y mp).getD 0
  · rw [if_pos h1]
    simp only [Option.some.injEq, Prod.mk.injEq]
    constructor
    · rintro ⟨hx, hy, ht⟩
      refine ⟨hx, hy, ?_⟩
      rw [← ht, if_pos rfl, ← hx, ← hy]
      exact h1
    · rintro ⟨hx, hy, hcond⟩
      refine ⟨hx, hy, ?_⟩
      cases tag with
      | true => rfl
      | false =>
        rw [if_neg (by simp), ← hx, ← hy] at hcond
        omega
  · rw [if_neg h1]
    by_cases h2 : (assocFind y mp).getD 0 < (assocFind x mp).getD 0
    · rw [if_pos h2]
      simp only [Option.some.injEq, Prod.mk.injEq]
      constructor
      · rintro ⟨hx, hy, ht⟩
        refine ⟨hx, hy, ?_⟩
        rw [← ht, if_neg (by simp), ← hx, ← hy]
        exact h2
      · rintro ⟨hx, hy, hcond⟩
        refine ⟨hx, hy, ?_⟩
        cases tag with
        | false => rfl
        | true =>
          rw [if_pos rfl, ← hx, ← hy] at hcond
          omega
    · simp only [if_neg h2]
      constructor
      · intro h
        exact absurd h (by simp)
      · rintro ⟨hx, hy, hcond⟩
        exfalso
        cases tag with
        | true =>
          rw [if_pos rfl, ← hx, ← hy] at hcond
          omega
        | false =>
          rw [if_neg (by simp), ← hx, ← hy] at hcond
          omega

theorem pairVote_eq_some_iff (mp : List (String × Nat)) (A B : String) (tag : Bool)
    (hAB : pyStrLt A B = true) (ab : String × String) :
    pairVote mp ab = some (A, B, tag)
      ↔ ((ab = (A, B) ∨ ab = (B, A))
        ∧ (if tag then (assocFind A mp).getD 0 < (assocFind B mp).getD 0
            else (assocFind B mp).getD 0 < (assocFind A mp).getD 0)) := by
  obtain ⟨a0, b0⟩ := ab
  have hBA : pyStrLt B A = false := pyStrLt_asymm hAB
  rw [pairVote_eq_simple]
  by_cases hswap : pyStrLt b0 a0 = true
  · rw [if_pos hswap, pairVoteSimple_eq_some_iff]
    constructor
    · rintro ⟨hb, ha, hcond⟩
      refine ⟨Or.inr ?_, hcond⟩
      rw [ha, hb]
    · rintro ⟨hor, hcond⟩
      rcases hor with h | h
      · exfalso
        have ha : a0 = A := congrArg Prod.fst h
        have hb : b0 = B := congrArg Prod.snd h
        rw [ha, hb, hBA] at hswap
        exact Bool.false_ne_true hswap
      · have hb : b0 = A := congrArg Prod.snd h
        have ha : a0 = B := congrArg Prod.fst h
        exact ⟨hb, ha, hcond⟩
  · rw [if_neg hswap, pairVoteSimple_eq_some_iff]
    constructor
    · rintro ⟨ha, hb, hcond⟩
      refine ⟨Or.inl ?_, hcond⟩
      rw [ha, hb]
    · rintro ⟨hor, hcond⟩
      rcases hor with h | h
      · have ha : a0 = A := congrArg Prod.fst h
        have hb : b0 = B := congrArg Prod.snd h
        exact ⟨ha, hb, hcond⟩
      · exfalso
        have ha : a0 = B := congrArg Prod.fst h
        have hb : b0 = A := congrArg Prod.snd h
        rw [ha, hb] at hswap
        exact hswap hAB

/-- The last position at which a label mapping to `m` occurs in the ranking,
scanning from index `n` (later assignments to `model_positions` overwrite). -/
def lastMatchFrom (label_to_model : List (String × String)) (m : String) :
    Nat → List String → Option Nat
  | _, [] => none
  | n, l :: ls =>
    match lastMatchFrom label_to_model m (n + 1) ls with
    | some j => some j
    | none => if assocFind l label_to_model = some m then some n else none

theorem assocFind_tposStep_fold (label_to_model : List (String × String)) (m : String) :
    ∀ (L : List String) (n : Nat) (acc : List (String × Nat)),
      assocFind m ((List.enumFrom n L).foldl (tposStep label_to_model) acc)
        = match lastMatchFrom label_to_model m n L with
          | some j => some j
          | none => assocFind m acc := by
  intro L
  induction L with
  | nil => intro n acc; rfl
  | cons l ls ih =>
    intro n acc
    rw [List.enumFrom_cons, List.foldl_cons, ih]
    show _ = (match lastMatchFrom label_to_model m n (l :: ls) with
      | some j => some j
      | none => assocFind m acc)
    rw [lastMatchFrom]
    cases hrec : lastMatchFrom label_to_model m (n + 1) ls with
    | some j => rfl
    | none =>
      show assocFind m (tposStep label_to_model acc (n, l)) = _
      unfold tposStep
      cases hl : assocFind l label_to_model with
      | none =>
        have : ¬ (none : Option String) = some m := by simp
        simp [this]
      | some m0 =>
        rw [assocFind_dictInsert]
        by_cases hm : m0 = m
        · simp [hm]
        · have : ¬ (some m0 = some m) := by simp [hm]
          simp [hm, this]

theorem assocFind_tournamentPositions (label_to_model : List (String × String))
    (m : String) (L : List String) :
    assocFind m (tournamentPositions label_to_model L)
      = lastMatchFrom label_to_model m 0 L := by
  rw [tournamentPositions, show L.enum = List.enumFrom 0 L from rfl,
    assocFind_tposStep_fold]
  cases lastMatchFrom label_to_model m 0 L <;> rfl

theorem nodup_keys_tournamentPositions (label_to_model : List (String × String))
    (L : List String) :
    ((tournamentPositions label_to_model L).map Prod.fst).Nodup := by
  rw [tournamentPositions]
  have h : ∀ (pairs : List (Nat × String)) (acc : List (String × Nat)),
      (acc.map Prod.fst).Nodup →
      ((pairs.foldl (tposStep label_to_model) acc).map Prod.fst).Nodup := by
    intro pairs
    induction pairs with
    | nil => intro acc hacc; exact hacc
    | cons il rest ih =>
      intro acc hacc
      rw [List.foldl_cons]
      apply ih
      unfold tposStep
      cases assocFind il.2 label_to_model with
      | none => exact hacc
      | some m0 => exact nodup_keys_dictInsert _ _ _ hacc
  exact h _ [] (by simp)

theorem labelFor_unique (label_to_model : List (String × String))
    (hk : (label_to_model.map Prod.fst).Nodup)
    (hv : ∀ l1 l2 m, (l1, m) ∈ label_to_model → (l2, m) ∈ label_to_model → l1 = l2)
    (m l : String) (hl : labelFor label_to_model m = some l) :
    ∀ x, assocFind x label_to_model = some m ↔ x = l := by
  rw [labelFor] at hl
  cases hfind : label_to_model.find? (fun kv => kv.2 == m) with
  | none => rw [hfind] at hl; exact absurd hl (by simp)
  | some kv0 =>
    rw [hfind] at hl
    have hkv1 : kv0.1 = l := by
      simpa using hl
    have hkv2 : kv0.2 = m := by
      have := List.find?_some hfind
      simpa using this
    have hmem : (l, m) ∈ label_to_model := by
      have := List.mem_of_find?_eq_some hfind
      rwa [show kv0 = (l, m) from by rw [← hkv1, ← hkv2]] at this
    intro x
    constructor
    · intro hx
      exact hv x l m (mem_of_assocFind_eq_some hx) hmem
    · intro hx
      rw [hx]
      exact assocFind_eq_some_of_nodup hk hmem

theorem labelFor_none (label_to_model : List (String × String)) (m : String)
    (hl : labelFor label_to_model m = none) :
    ∀ x, assocFind x label_to_model ≠ some m := by
  rw [labelFor] at hl
  cases hfind : label_to_model.find? (fun kv => kv.2 == m) with
  | some kv0 => rw [hfind] at hl; exact absurd hl (by simp)
  | none =>
    intro x hx
    have hmem := mem_of_assocFind_eq_some hx
    rw [List.find?_eq_none] at hfind
    exact hfind _ hmem (by simp)

theorem lastMatchFrom_of_none (label_to_model : List (String × String)) (m : String)
    (hnone : ∀ x, assocFind x label_to_model ≠ some m) :
    ∀ (L : List String) (n : Nat), lastMatchFrom label_to_model m n L = none := by
  intro L
  induction L with
  | nil => intro n; rfl
  | cons l ls ih =>
    intro n
    rw [lastMatchFrom, ih]
    simp [hnone l]

theorem lastMatchFrom_unique (label_to_model : List (String × String)) (m l : String)
    (huniq : ∀ x, assocFind x label_to_model = some m ↔ x = l) :
    ∀ L : List String, L.Nodup → ∀ n : Nat,
      lastMatchFrom label_to_model m n L
        = if l ∈ L then some (n + L.indexOf l) else none := by
  intro L
  induction L with
  | nil => intro _ n; simp [lastMatchFrom]
  | cons x xs ih =>
    intro hnd n
    rw [List.nodup_cons] at hnd
    rw [lastMatchFrom, ih hnd.2]
    by_cases hx : x = l
    · subst hx
      rw [if_neg hnd.1, if_pos (List.mem_cons_self x xs), List.indexOf_cons_self]
      show (if assocFind x label_to_model = some m then some n else none) = some (n + 0)
      rw [if_pos ((huniq x).2 rfl)]
      norm_num
    · by_cases hmem : l ∈ xs
      · rw [if_pos hmem]
        have : l ∈ x :: xs := List.mem_cons_of_mem _ hmem
        rw [if_pos this]
        have hidx : (x :: xs).indexOf l = xs.indexOf l + 1 := by
          rw [List.indexOf_cons_ne _ (by simpa using hx)]
        rw [hidx]
        show some (n + 1 + xs.indexOf l) = some (n + (xs.indexOf l + 1))
        congr 1
        omega
      · rw [if_neg hmem]
        have hfx : ¬ assocFind x label_to_model = some m := by
          intro h
          exact hx ((huniq x).1 h)
        rw [if_neg hfx]
        have : l ∉ x :: xs := by
          intro h
          rcases List.mem_cons.1 h with h | h
          · exact hx h.symm
          · exact hmem h
        rw [if_neg this]
        try rfl

theorem assocFind_tournamentPositions_spec (label_to_model : List (String × String))
    (hk : (label_to_model.map Prod.fst).Nodup)
    (hv : ∀ l1 l2 m, (l1, m) ∈ label_to_model → (l2, m) ∈ label_to_model → l1 = l2)
    (L : List String) (hL : L.Nodup) (m : String) :
    assocFind m (tournamentPositions label_to_model L)
      = match labelFor label_to_model m with
        | some l => if l ∈ L then some (L.indexOf l) else none
        | none => none := by
  rw [assocFind_tournamentPositions]
  cases hlf : labelFor label_to_model m with
  | none => exact lastMatchFrom_of_none _ _ (labelFor_none _ _ hlf) L 0
  | some l =>
    rw [lastMatchFrom_unique _ _ _ (labelFor_unique _ hk hv _ _ hlf) L hL 0]
    simp only [Nat.zero_add]

theorem rankerVotes_countP (jsonDecode : String → Option PyJson)
    (label_to_model : List (String × String)) (r : Stage2Result) (A B : String)
    (tag : Bool) (hAB : pyStrLt A B = true) :
    (rankerVotes jsonDecode label_to_model r).countP (fun x => decide (x = (A, B, tag)))
      = if ((assocFind A (tournamentPositions label_to_model
              (effectiveRanking jsonDecode label_to_model r))).isSome
          ∧ (assocFind B (tournamentPositions label_to_model
              (effectiveRanking jsonDecode label_to_model r))).isSome
          ∧ (if tag then
              (assocFind A (tournamentPositions label_to_model
                (effectiveRanking jsonDecode label_to_model r))).getD 0
                < (assocFind B (tournamentPositions label_to_model
                  (effectiveRanking jsonDecode label_to_model r))).getD 0
            else
              (assocFind B (tournamentPositions label_to_model
                (effectiveRanking jsonDecode label_to_model r))).getD 0
                < (assocFind A (tournamentPositions label_to_model
                  (effectiveRanking jsonDecode label_to_model r))).getD 0))
        then 1 else 0 := by
  have hABne : A ≠ B := by
    intro h
    rw [h] at hAB
    exact absurd (hAB.symm.trans (pyStrLt_asymm hAB)) (by simp)
  unfold rankerVotes
  by_cases hL : effectiveRanking jsonDecode label_to_model r = []
  · rw [if_pos hL, hL]
    show (0 : Nat) = _
    rw [if_neg]
    rintro ⟨h1, -, -⟩
    rw [show tournamentPositions label_to_model [] = [] from rfl] at h1
    simp [assocFind] at h1
  · rw [if_neg hL]
    show (((allPairs ((tournamentPositions label_to_model
        (effectiveRanking jsonDecode label_to_model r)).map Prod.fst)).filterMap
          (pairVote (tournamentPositions label_to_model
            (effectiveRanking jsonDecode label_to_model r)))).countP
      (fun x => decide (x = (A, B, tag)))) = _
    rw [countP_filterMap_eq]
    rw [List.countP_congr (fun ab _ => Iff.intro
      (fun h => decide_eq_true ((pairVote_eq_some_iff _ A B tag hAB ab).1
        (of_decide_eq_true h)))
      (fun h => decide_eq_true ((pairVote_eq_some_iff _ A B tag hAB ab).2
        (of_decide_eq_true h))))]
    by_cases hcond : (if tag then
        (assocFind A (tournamentPositions label_to_model
          (effectiveRanking jsonDecode label_to_model r))).getD 0
          < (assocFind B (tournamentPositions label_to_model
            (effectiveRanking jsonDecode label_to_model r))).getD 0
      else
        (assocFind B (tournamentPositions label_to_model
          (effectiveRanking jsonDecode label_to_model r))).getD 0
          < (assocFind A (tournamentPositions label_to_model
            (effectiveRanking jsonDecode label_to_model r))).getD 0)
    · have hpred : ∀ ab : String × String,
          (decide ((ab = (A, B) ∨ ab = (B, A)) ∧ (if tag then
            (assocFind A (tournamentPositions label_to_model
              (effectiveRanking jsonDecode label_to_model r))).getD 0
              < (assocFind B (tournamentPositions label_to_model
                (effectiveRanking jsonDecode label_to_model r))).getD 0
          else
            (assocFind B (tournamentPositions label_to_model
              (effectiveRanking jsonDecode label_to_model r))).getD 0
              < (assocFind A (tournamentPositions label_to_model
                (effectiveRanking jsonDecode label_to_model r))).getD 0)) = true)
            ↔ (decide (ab = (A, B) ∨ ab = (B, A)) = true) := by
        intro ab
        simp only [decide_eq_true_eq]
        exact ⟨fun h => h.1, fun h => ⟨h, hcond⟩⟩
      trans ((allPairs ((tournamentPositions label_to_model
          (effectiveRanking jsonDecode label_to_model r)).map Prod.fst)).countP
        (fun ab => decide (ab = (A, B) ∨ ab = (B, A))))
      · exact List.countP_congr (fun ab _ => hpred ab)
      rw [countP_allPairs_pair A B hABne _
        (nodup_keys_tournamentPositions label_to_model _)]
      refine if_congr ?_ rfl rfl
      constructor
      · rintro ⟨ha, hb⟩
        exact ⟨(assocFind_isSome_iff_mem_keys _ _).2 ha,
          (assocFind_isSome_iff_mem_keys _ _).2 hb, hcond⟩
      · rintro ⟨ha, hb, -⟩
        exact ⟨(assocFind_isSome_iff_mem_keys _ _).1 ha,
          (assocFind_isSome_iff_mem_keys _ _).1 hb⟩
    · have hzero : (allPairs ((tournamentPositions label_to_model
          (effectiveRanking jsonDecode label_to_model r)).map Prod.fst)).countP
          (fun ab => decide ((ab = (A, B) ∨ ab = (B, A)) ∧ (if tag then
            (assocFind A (tournamentPositions label_to_model
              (effectiveRanking jsonDecode label_to_model r))).getD 0
              < (assocFind B (tournamentPositions label_to_model
                (effectiveRanking jsonDecode label_to_model r))).getD 0
          else
            (assocFind B (tournamentPositions label_to_model
              (effectiveRanking jsonDecode label_to_model r))).getD 0
              < (assocFind A (tournamentPositions label_to_model
                (effectiveRanking jsonDecode label_to_model r))).getD 0))) = 0 := by
        rw [List.countP_eq_zero]
        intro ab _
        simp only [decide_eq_true_eq, not_and]
        intro _
        exact hcond
      rw [hzero, if_neg (fun h => hcond h.2.2)]

theorem rankerVotes_countP_spec (jsonDecode : String → Option PyJson)
    (label_to_model : List (String × String))
    (hk : (label_to_model.map Prod.fst).Nodup)
    (hv : ∀ l1 l2 m, (l1, m) ∈ label_to_model → (l2, m) ∈ label_to_model → l1 = l2)
    (r : Stage2Result)
    (hrnd : (effectiveRanking jsonDecode label_to_model r).Nodup)
    (A B : String) (tag : Bool) (hAB : pyStrLt A B = true) :
    (rankerVotes jsonDecode label_to_model r).countP (fun x => decide (x = (A, B, tag)))
      = if (if tag then subWinsPred jsonDecode label_to_model A B r
            else subWinsPred jsonDecode label_to_model B A r) = true
        then 1 else 0 := by
  rw [rankerVotes_countP jsonDecode label_to_model r A B tag hAB]
  refine if_congr ?_ rfl rfl
  rw [assocFind_tournamentPositions_spec label_to_model hk hv _ hrnd A,
    assocFind_tournamentPositions_spec label_to_model hk hv _ hrnd B]
  cases hfa : labelFor label_to_model A with
  | none =>
    simp only [Option.isSome_none]
    cases tag <;> simp [subWinsPred, hfa]
  | some la =>
    cases hfb : labelFor label_to_model B with
    | none =>
      simp only [Option.isSome_none]
      cases tag <;> simp [subWinsPred, hfa, hfb]
    | some lb =>
      by_cases hma : la ∈ effectiveRanking jsonDecode label_to_model r
      · by_cases hmb : lb ∈ effectiveRanking jsonDecode label_to_model r
        · simp only [if_pos hma, if_pos hmb, Option.isSome_some, Option.getD_some]
          cases tag <;> simp [subWinsPred, hfa, hfb, hma, hmb]
        · simp only [if_pos hma, if_neg hmb, Option.isSome_none, Option.isSome_some]
          cases tag <;> simp [subWinsPred, hfa, hfb, hmb]
      · simp only [if_neg hma, Option.isSome_none]
        cases tag <;> simp [subWinsPred, hfa, hfb, hma]

theorem pairwiseWins_eq_subWins (jsonDecode : String → Option PyJson)
    (stage2_results : List Stage2Result) (label_to_model : List (String × String))
    (hk : (label_to_model.map Prod.fst).Nodup)
    (hv : ∀ l1 l2 m, (l1, m) ∈ label_to_model → (l2, m) ∈ label_to_model → l1 = l2)
    (hr : ∀ r ∈ stage2_results, (effectiveRanking jsonDecode label_to_model r).Nodup)
    (A B : String) (hAB : pyStrLt A B = true) :
    pairwiseWins jsonDecode stage2_results label_to_model (A, B, true)
        = subWins jsonDecode stage2_results label_to_model A B
      ∧ pairwiseWins jsonDecode stage2_results label_to_model (A, B, false)
        = subWins jsonDecode stage2_results label_to_model B A := by
  constructor
  · rw [pairwiseWins_count, subWins]
    rw [List.map_congr_left (fun r hr2 =>
      rankerVotes_countP_spec jsonDecode label_to_model hk hv r (hr r hr2) A B true hAB)]
    exact sum_map_indicator _ _
  · rw [pairwiseWins_count, subWins]
    rw [List.map_congr_left (fun r hr2 =>
      rankerVotes_countP_spec jsonDecode label_to_model hk hv r (hr r hr2) A B false hAB)]
    exact sum_map_indicator _ _

theorem mem_allPairs {α : Type} : ∀ (l : List α) (ab : α × α),
    ab ∈ allPairs l → ab.1 ∈ l ∧ ab.2 ∈ l := by
  intro l
  induction l with
  | nil => intro ab h; simp [allPairs] at h
  | cons x xs ih =>
    intro ab h
    rw [allPairs, List.mem_append] at h
    rcases h with h | h
    · rw [List.mem_map] at h
      obtain ⟨y, hy, rfl⟩ := h
      exact ⟨List.mem_cons_self _ _, List.mem_cons_of_mem _ hy⟩
    · obtain ⟨h1, h2⟩ := ih ab h
      exact ⟨List.mem_cons_of_mem _ h1, List.mem_cons_of_mem _ h2⟩

theorem allPairs_distinct {α : Type} : ∀ (l : List α), l.Nodup →
    ∀ ab ∈ allPairs l, ab.1 ≠ ab.2 := by
  intro l
  induction l with
  | nil => intro _ ab h; simp [allPairs] at h
  | cons x xs ih =>
    intro hnd ab h
    rw [List.nodup_cons] at hnd
    rw [allPairs, List.mem_append] at h
    rcases h with h | h
    · rw [List.mem_map] at h
      obtain ⟨y, hy, rfl⟩ := h
      intro hxy
      have hxy2 : x = y := hxy
      apply hnd.1
      rw [hxy2]
      exact hy
    · exact ih hnd.2 ab h

theorem normPair_cases (ab : String × String) :
    normPair ab = ab ∨ normPair ab = (ab.2, ab.1) := by
  unfold normPair
  by_cases h : pyStrLt ab.2 ab.1 = true
  · rw [if_pos h]
    right
    rfl
  · rw [if_neg h]
    left
    rfl

theorem normPair_injective_fixed (x : String) :
    Function.Injective (fun y => normPair (x, y)) := by
  intro y1 y2 h
  dsimp only at h
  rcases normPair_cases (x, y1) with h1 | h1 <;>
    rcases normPair_cases (x, y2) with h2 | h2 <;>
      rw [h1, h2] at h
  · exact congrArg Prod.snd h
  · have ha : x = y2 := congrArg Prod.fst h
    have hb : y1 = x := congrArg Prod.snd h
    rw [hb, ha]
  · have ha : y1 = x := congrArg Prod.fst h
    have hb : x = y2 := congrArg Prod.snd h
    rw [ha, hb]
  · exact congrArg Prod.fst h

theorem nodup_normPair_allPairs : ∀ l : List String, l.Nodup →
    ((allPairs l).map normPair).Nodup := by
  intro l
  induction l with
  | nil => intro _; simp [allPairs]
  | cons x xs ih =>
    intro hnd
    rw [List.nodup_cons] at hnd
    rw [allPairs, List.map_append, List.nodup_append]
    refine ⟨?_, ih hnd.2, ?_⟩
    · rw [List.map_map]
      exact List.Nodup.map (normPair_injective_fixed x) hnd.2
    · intro p hp hq
      rw [List.map_map, List.mem_map] at hp
      obtain ⟨y, -, rfl⟩ := hp
      rw [List.mem_map] at hq
      obtain ⟨ab, habmem, habeq⟩ := hq
      simp only [Function.comp_apply] at habeq
      have hcomps := mem_allPairs xs ab habmem
      have hx : x ∈ xs := by
        rcases normPair_cases (x, y) with h1 | h1 <;>
          rcases normPair_cases ab with h2 | h2 <;>
            rw [h1, h2] at habeq
        · have hfst : ab.1 = x := congrArg Prod.fst habeq
          rw [← hfst]
          exact hcomps.1
        · have hsnd : ab.2 = x := congrArg Prod.fst habeq
          rw [← hsnd]
          exact hcomps.2
        · have hsnd : ab.2 = x := congrArg Prod.snd habeq
          rw [← hsnd]
          exact hcomps.2
        · have hfst : ab.1 = x := congrArg Prod.snd habeq
          rw [← hfst]
          exact hcomps.1
      exact hnd.1 hx

theorem statsFold_eq_foldl (w : String × String × Bool → Nat) :
    ∀ (pairs : List (String × String)) (processed : List (String × String))
      (st : String → TStats),
      (pairs.map normPair).Nodup →
      (∀ ab ∈ pairs, normPair ab ∉ processed) →
      statsFold w pairs processed st = pairs.foldl (statsStep w) st := by
  intro pairs
  induction pairs with
  | nil => intro processed st _ _; rfl
  | cons ab rest ih =>
    intro processed st hnd hnotin
    rw [List.map_cons, List.nodup_cons] at hnd
    rw [statsFold, if_neg (hnotin ab (List.mem_cons_self _ _)), List.foldl_cons]
    apply ih
    · exact hnd.2
    · intro ab2 hab2
      rw [List.mem_cons]
      rintro (h | h)
      · exact hnd.1 (h ▸ List.mem_map.2 ⟨ab2, hab2, rfl⟩)
      · exact hnotin ab2 (List.mem_cons_of_mem _ hab2) h

/-- Whether the pair loop body awards model `m` a match win for pair `ab`. -/
def winP (w : String × String × Bool → Nat) (m : String) (ab : String × String) : Bool :=
  decide ((m = (normPair ab).1
      ∧ w ((normPair ab).1, (normPair ab).2, false)
        < w ((normPair ab).1, (normPair ab).2, true))
    ∨ (m = (normPair ab).2
      ∧ w ((normPair ab).1, (normPair ab).2, true)
        < w ((normPair ab).1, (normPair ab).2, false)))

/-- Whether the pair loop body awards model `m` a match loss for pair `ab`. -/
def lossP (w : String × String × Bool → Nat) (m : String) (ab : String × String) : Bool :=
  decide ((m = (normPair ab).2
      ∧ w ((normPair ab).1, (normPair ab).2, false)
        < w ((normPair ab).1, (normPair ab).2, true))
    ∨ (m = (normPair ab).1
      ∧ w ((normPair ab).1, (normPair ab).2, true)
        < w ((normPair ab).1, (normPair ab).2, false)))

/-- Whether the pair loop body awards model `m` a match tie for pair `ab`. -/
def tieP (w : String × String × Bool → Nat) (m : String) (ab : String × String) : Bool :=
  decide ((m = (normPair ab).1 ∨ m = (normPair ab).2)
    ∧ w ((normPair ab).1, (normPair ab).2, true)
      = w ((normPair ab).1, (normPair ab).2, false)
    ∧ (0 < w ((normPair ab).1, (normPair ab).2, true)
      ∨ 0 < w ((normPair ab).1, (normPair ab).2, false)))

theorem statsStep_components (w : String × String × Bool → Nat) (st : String → TStats)
    (ab : String × String) (m : String) (hab : (normPair ab).1 ≠ (normPair ab).2) :
    (statsStep w st ab) m
      = ⟨(st m).wins + (if winP w m ab then 1 else 0),
         (st m).losses + (if lossP w m ab then 1 else 0),
         (st m).ties + (if tieP w m ab then 1 else 0)⟩ := by
  unfold statsStep winP lossP tieP bumpWins bumpLosses bumpTies
  dsimp only
  by_cases h1 : w ((normPair ab).1, (normPair ab).2, false)
      < w ((normPair ab).1, (normPair ab).2, true)
  · have hnlt : ¬ w ((normPair ab).1, (normPair ab).2, true)
        < w ((normPair ab).1, (normPair ab).2, false) := by omega
    have hneq : ¬ w ((normPair ab).1, (normPair ab).2, true)
        = w ((normPair ab).1, (normPair ab).2, false) := by omega
    by_cases hm1 : m = (normPair ab).1
    · have hm2 : ¬ m = (normPair ab).2 := fun h => hab (hm1.symm.trans h)
      simp [h1, hm1, hnlt, hneq, hab, Ne.symm hab]
    · by_cases hm2 : m = (normPair ab).2
      · simp [h1, hm1, hm2, hnlt, hneq, hab, Ne.symm hab]
      · simp [h1, hm1, hm2, hnlt, hneq]
  · by_cases h2 : w ((normPair ab).1, (normPair ab).2, true)
        < w ((normPair ab).1, (normPair ab).2, false)
    · have hneq : ¬ w ((normPair ab).1, (normPair ab).2, true)
          = w ((normPair ab).1, (normPair ab).2, false) := by omega
      by_cases hm1 : m = (normPair ab).1
      · have hm2 : ¬ m = (normPair ab).2 := fun h => hab (hm1.symm.trans h)
        simp [h1, h2, hm1, hm2, hneq, hab, Ne.symm hab]
      · by_cases hm2 : m = (normPair ab).2
        · simp [h1, h2, hm1, hm2, hneq, hab, Ne.symm hab]
        · simp [h1, h2, hm1, hm2, hneq]
    · have heq : w ((normPair ab).1, (normPair ab).2, true)
          = w ((normPair ab).1, (normPair ab).2, false) := by omega
      by_cases h3 : 0 < w ((normPair ab).1, (normPair ab).2, true)
          ∨ 0 < w ((normPair ab).1, (normPair ab).2, false)
      · have h3f : 0 < w ((normPair ab).1, (normPair ab).2, false) := by
          rcases h3 with h | h <;> omega
        have h3t : 0 < w ((normPair ab).1, (normPair ab).2, true) := by omega
        by_cases hm1 : m = (normPair ab).1
        · have hm2 : ¬ m = (normPair ab).2 := fun h => hab (hm1.symm.trans h)
          simp [h1, h2, h3, h3f, h3t, hm1, hm2, heq, hab, Ne.symm hab]
        · by_cases hm2 : m = (normPair ab).2
          · simp [h1, h2, h3, h3f, h3t, hm1, hm2, heq, hab, Ne.symm hab]
          · simp [h1, h2, h3, h3f, h3t, hm1, hm2, heq]
      · push_neg at h3
        have h3f : ¬ 0 < w ((normPair ab).1, (normPair ab).2, false) := by omega
        have h3t : ¬ 0 < w ((normPair ab).1, (normPair ab).2, true) := by omega
        have h3r : ¬ (0 < w ((normPair ab).1, (normPair ab).2, true)
            ∨ 0 < w ((normPair ab).1, (normPair ab).2, false)) := by
          rintro (h | h) <;> omega
        by_cases hm1 : m = (normPair ab).1
        · have hm2 : ¬ m = (normPair ab).2 := fun h => hab (hm1.symm.trans h)
          simp [h1, h2, h3r, h3f, h3t, hm1, hm2, heq, hab, Ne.symm hab]
        · by_cases hm2 : m = (normPair ab).2
          · simp [h1, h2, h3r, h3f, h3t, hm1, hm2, heq, hab, Ne.symm hab]
          · simp [h1, h2, h3r, h3f, h3t, hm1, hm2, hab, Ne.symm hab]

theorem foldl_statsStep_components (w : String × String × Bool → Nat) (m : String) :
    ∀ (pairs : List (String × String)),
      (∀ ab ∈ pairs, (normPair ab).1 ≠ (normPair ab).2) →
      ∀ st : String → TStats,
      (pairs.foldl (statsStep w) st) m
        = ⟨(st m).wins + (pairs.countP (winP w m) : ℚ),
           (st m).losses + (pairs.countP (lossP w m) : ℚ),
           (st m).ties + (pairs.countP (tieP w m) : ℚ)⟩ := by
  intro pairs
  induction pairs with
  | nil =>
    intro _ st
    simp only [List.foldl_nil, List.countP_nil, Nat.cast_zero, add_zero]
  | cons ab rest ih =>
    intro hdist st
    rw [List.foldl_cons, ih (fun ab2 h => hdist ab2 (List.mem_cons_of_mem _ h)),
      statsStep_components w st ab m (hdist ab (List.mem_cons_self _ _)),
      List.countP_cons, List.countP_cons, List.countP_cons]
    dsimp only
    simp only [TStats.mk.injEq]
    refine ⟨?_, ?_, ?_⟩ <;> push_cast <;> ring

theorem countP_eq_mem {α : Type} [DecidableEq α] (xs : List α) (hnd : xs.Nodup) (m : α) :
    xs.countP (fun y => decide (y = m)) = if m ∈ xs then 1 else 0 := by
  by_cases hm : m ∈ xs
  · rw [if_pos hm]
    have h1 : xs.countP (fun y => decide (y = m)) = xs.count m := by
      rw [List.count_eq_countP]
      apply List.countP_congr
      intro y hy
      by_cases h : y = m <;> simp [h]
    rw [h1]
    exact List.count_eq_one_of_mem hnd hm
  · rw [if_neg hm, List.countP_eq_zero]
    intro y hy
    simp only [decide_eq_true_eq]
    intro h
    exact hm (h ▸ hy)

theorem normPair_lt (ab : String × String) (hne : ab.1 ≠ ab.2) :
    pyStrLt (normPair ab).1 (normPair ab).2 = true := by
  unfold normPair
  by_cases hswap : pyStrLt ab.2 ab.1 = true
  · rw [if_pos hswap]
    exact hswap
  · rw [if_neg hswap]
    by_cases h : pyStrLt ab.1 ab.2 = true
    · exact h
    · exact absurd (pyStrLt_connex (Bool.not_eq_true _ ▸ h) (Bool.not_eq_true _ ▸ hswap))
        hne

theorem normPair_ne (ab : String × String) (hne : ab.1 ≠ ab.2) :
    (normPair ab).1 ≠ (normPair ab).2 := by
  intro h
  have hlt := normPair_lt ab hne
  rw [h] at hlt
  exact absurd (hlt.symm.trans (pyStrLt_asymm hlt)) (by simp)

theorem countP_allPairs_involving {α : Type} [DecidableEq α] (q : α → Bool) (m : α) :
    ∀ U : List α, U.Nodup → m ∈ U →
      (allPairs U).countP (fun ab =>
        if ab.1 = m then q ab.2 else if ab.2 = m then q ab.1 else false)
        = (U.filter (fun o => decide (o ≠ m))).countP q := by
  intro U
  induction U with
  | nil => intro _ hm; simp at hm
  | cons x xs ih =>
    intro hnd hm
    rw [List.nodup_cons] at hnd
    rw [allPairs, List.countP_append, List.countP_map]
    by_cases hx : x = m
    · subst hx
      have hmap : xs.countP ((fun ab : α × α =>
          if ab.1 = x then q ab.2 else if ab.2 = x then q ab.1 else false)
          ∘ fun y => (x, y)) = xs.countP q := by
        apply List.countP_congr
        intro y hy
        simp
      have hrest : (allPairs xs).countP (fun ab : α × α =>
          if ab.1 = x then q ab.2 else if ab.2 = x then q ab.1 else false) = 0 := by
        rw [List.countP_eq_zero]
        intro ab hab
        have hcomps := mem_allPairs xs ab hab
        have h1 : ab.1 ≠ x := fun h => hnd.1 (h ▸ hcomps.1)
        have h2 : ab.2 ≠ x := fun h => hnd.1 (h ▸ hcomps.2)
        simp [h1, h2]
      rw [hmap, hrest]
      have hfilter : (x :: xs).filter (fun o => decide (o ≠ x)) = xs := by
        rw [List.filter_cons_of_neg (by simp)]
        rw [List.filter_eq_self]
        intro a ha
        simp only [decide_eq_true_eq]
        intro h
        exact hnd.1 (h ▸ ha)
      rw [hfilter]
      omega
    · have hmxs : m ∈ xs := by
        rcases List.mem_cons.1 hm with h | h
        · exact absurd h.symm hx
        · exact h
      have hmap : xs.countP ((fun ab : α × α =>
          if ab.1 = m then q ab.2 else if ab.2 = m then q ab.1 else false)
          ∘ fun y => (x, y))
          = xs.countP (fun y => if y = m then q x else false) := by
        apply List.countP_congr
        intro y hy
        simp only [Function.comp_apply, if_neg hx]
      have hcount : xs.countP (fun y => if y = m then q x else false)
          = if q x then 1 else 0 := by
        cases hqx : q x with
        | true =>
          have heqf : (fun y => if y = m then (true : Bool) else false)
              = fun y => decide (y = m) := by
            funext y
            by_cases h : y = m <;> simp [h]
          rw [heqf, countP_eq_mem xs hnd.2 m, if_pos hmxs]
          simp
        | false =>
          rw [List.countP_eq_zero.2, if_neg (by simp)]
          intro y hy
          by_cases h : y = m <;> simp [h]
      have hfilter : (x :: xs).filter (fun o => decide (o ≠ m))
          = x :: xs.filter (fun o => decide (o ≠ m)) :=
        List.filter_cons_of_pos (by simp [hx])
      rw [hmap, hcount, ih hnd.2 hmxs, hfilter, List.countP_cons]
      by_cases hq : q x <;> simp [hq] <;> omega

theorem winP_translate (jsonDecode : String → Option PyJson)
    (stage2_results : List Stage2Result) (label_to_model : List (String × String))
    (hk : (label_to_model.map Prod.fst).Nodup)
    (hv : ∀ l1 l2 m, (l1, m) ∈ label_to_model → (l2, m) ∈ label_to_model → l1 = l2)
    (hr : ∀ r ∈ stage2_results, (effectiveRanking jsonDecode label_to_model r).Nodup)
    (m : String) (ab : String × String) (hne : ab.1 ≠ ab.2) :
    winP (pairwiseWins jsonDecode stage2_results label_to_model) m ab
      = (if ab.1 = m
          then decide (subWins jsonDecode stage2_results label_to_model ab.2 m
            < subWins jsonDecode stage2_results label_to_model m ab.2)
          else if ab.2 = m
          then decide (subWins jsonDecode stage2_results label_to_model ab.1 m
            < subWins jsonDecode stage2_results label_to_model m ab.1)
          else false) := by
  have hbridge := pairwiseWins_eq_subWins jsonDecode stage2_results label_to_model hk hv hr
    (normPair ab).1 (normPair ab).2 (normPair_lt ab hne)
  unfold winP
  rcases normPair_cases ab with hc | hc <;> rw [hc] at hbridge ⊢ <;>
    (try dsimp only at hbridge ⊢) <;> rw [hbridge.1, hbridge.2] <;>
      by_cases hm1 : ab.1 = m <;> by_cases hm2 : ab.2 = m
  · exact absurd (hm1.trans hm2.symm) hne
  · simp [hm1, hm2, Ne.symm hm2]
  · simp [hm1, hm2, Ne.symm hm1]
  · simp [hm1, hm2, Ne.symm hm1, Ne.symm hm2]
  · exact absurd (hm1.trans hm2.symm) hne
  · simp [hm1, hm2, Ne.symm hm2]
  · simp [hm1, hm2, Ne.symm hm1]
  · simp [hm1, hm2, Ne.symm hm1, Ne.symm hm2]

theorem lossP_translate (jsonDecode : String → Option PyJson)
    (stage2_results : List Stage2Result) (label_to_model : List (String × String))
    (hk : (label_to_model.map Prod.fst).Nodup)
    (hv : ∀ l1 l2 m, (l1, m) ∈ label_to_model → (l2, m) ∈ label_to_model → l1 = l2)
    (hr : ∀ r ∈ stage2_results, (effectiveRanking jsonDecode label_to_model r).Nodup)
    (m : String) (ab : String × String) (hne : ab.1 ≠ ab.2) :
    lossP (pairwiseWins jsonDecode stage2_results label_to_model) m ab
      = (if ab.1 = m
          then decide (subWins jsonDecode stage2_results label_to_model m ab.2
            < subWins jsonDecode stage2_results label_to_model ab.2 m)
          else if ab.2 = m
          then decide (subWins jsonDecode stage2_results label_to_model m ab.1
            < subWins jsonDecode stage2_results label_to_model ab.1 m)
          else false) := by
  have hbridge := pairwiseWins_eq_subWins jsonDecode stage2_results label_to_model hk hv hr
    (normPair ab).1 (normPair ab).2 (normPair_lt ab hne)
  unfold lossP
  rcases normPair_cases ab with hc | hc <;> rw [hc] at hbridge ⊢ <;>
    (try dsimp only at hbridge ⊢) <;> rw [hbridge.1, hbridge.2] <;>
      by_cases hm1 : ab.1 = m <;> by_cases hm2 : ab.2 = m
  · exact absurd (hm1.trans hm2.symm) hne
  · simp [hm1, hm2, Ne.symm hm2]
  · simp [hm1, hm2, Ne.symm hm1]
  · simp [hm1, hm2, Ne.symm hm1, Ne.symm hm2]
  · exact absurd (hm1.trans hm2.symm) hne
  · simp [hm1, hm2, Ne.symm hm2]
  · simp [hm1, hm2, Ne.symm hm1]
  · simp [hm1, hm2, Ne.symm hm1, Ne.symm hm2]

theorem tieP_translate (jsonDecode : String → Option PyJson)
    (stage2_results : List Stage2Result) (label_to_model : List (String × String))
    (hk : (label_to_model.map Prod.fst).Nodup)
    (hv : ∀ l1 l2 m, (l1, m) ∈ label_to_model → (l2, m) ∈ label_to_model → l1 = l2)
    (hr : ∀ r ∈ stage2_results, (effectiveRanking jsonDecode label_to_model r).Nodup)
    (m : String) (ab : String × String) (hne : ab.1 ≠ ab.2) :
    tieP (pairwiseWins jsonDecode stage2_results label_to_model) m ab
      = (if ab.1 = m
          then decide (subWins jsonDecode stage2_results label_to_model m ab.2
              = subWins jsonDecode stage2_results label_to_model ab.2 m
            ∧ (0 < subWins jsonDecode stage2_results label_to_model m ab.2
              ∨ 0 < subWins jsonDecode stage2_results label_to_model ab.2 m))
          else if ab.2 = m
          then decide (subWins jsonDecode stage2_results label_to_model m ab.1
              = subWins jsonDecode stage2_results label_to_model ab.1 m
            ∧ (0 < subWins jsonDecode stage2_results label_to_model m ab.1
              ∨ 0 < subWins jsonDecode stage2_results label_to_model ab.1 m))
          else false) := by
  have hbridge := pairwiseWins_eq_subWins jsonDecode stage2_results label_to_model hk hv hr
    (normPair ab).1 (normPair ab).2 (normPair_lt ab hne)
  unfold tieP
  rcases normPair_cases ab with hc | hc <;> rw [hc] at hbridge ⊢ <;>
    (try dsimp only at hbridge ⊢) <;> rw [hbridge.1, hbridge.2] <;>
      by_cases hm1 : ab.1 = m <;> by_cases hm2 : ab.2 = m
  · exact absurd (hm1.trans hm2.symm) hne
  · simp [hm1, hm2, Ne.symm hm2, eq_comm, or_comm]
  · simp [hm1, hm2, Ne.symm hm1, eq_comm, or_comm]
  · simp [hm1, hm2, Ne.symm hm1, Ne.symm hm2]
  · exact absurd (hm1.trans hm2.symm) hne
  · simp [hm1, hm2, Ne.symm hm2, eq_comm, or_comm]
  · simp [hm1, hm2, Ne.symm hm1, eq_comm, or_comm]
  · simp [hm1, hm2, Ne.symm hm1, Ne.symm hm2]

theorem statsFold_spec (jsonDecode : String → Option PyJson)
    (stage2_results : List Stage2Result) (label_to_model : List (String × String))
    (hk : (label_to_model.map Prod.fst).Nodup)
    (hv : ∀ l1 l2 m, (l1, m) ∈ label_to_model → (l2, m) ∈ label_to_model → l1 = l2)
    (hr : ∀ r ∈ stage2_results, (effectiveRanking jsonDecode label_to_model r).Nodup)
    (m : String) (hm : m ∈ (label_to_model.map Prod.snd).dedup) :
    (statsFold (pairwiseWins jsonDecode stage2_results label_to_model)
        (allPairs ((label_to_model.map Prod.snd).dedup)) [] (fun _ => ⟨0, 0, 0⟩)) m
      = ⟨(specWins jsonDecode stage2_results label_to_model m : ℚ),
         (specLosses jsonDecode stage2_results label_to_model m : ℚ),
         (specTies jsonDecode stage2_results label_to_model m : ℚ)⟩ := by
  have hUnd : ((label_to_model.map Prod.snd).dedup).Nodup := List.nodup_dedup _
  have hdist : ∀ ab ∈ allPairs ((label_to_model.map Prod.snd).dedup),
      (normPair ab).1 ≠ (normPair ab).2 := by
    intro ab hab
    exact normPair_ne ab (allPairs_distinct _ hUnd ab hab)
  rw [statsFold_eq_foldl _ _ _ _ (nodup_normPair_allPairs _ hUnd)
    (fun ab _ => List.not_mem_nil _)]
  rw [foldl_statsStep_components _ m _ hdist]
  have hwin : (allPairs ((label_to_model.map Prod.snd).dedup)).countP
      (winP (pairwiseWins jsonDecode stage2_results label_to_model) m)
      = specWins jsonDecode stage2_results label_to_model m := by
    unfold specWins
    trans ((allPairs ((label_to_model.map Prod.snd).dedup)).countP (fun ab =>
      if ab.1 = m
      then decide (subWins jsonDecode stage2_results label_to_model ab.2 m
        < subWins jsonDecode stage2_results label_to_model m ab.2)
      else if ab.2 = m
      then decide (subWins jsonDecode stage2_results label_to_model ab.1 m
        < subWins jsonDecode stage2_results label_to_model m ab.1)
      else false))
    · exact List.countP_congr (fun ab hab => by
        rw [winP_translate jsonDecode stage2_results label_to_model hk hv hr m ab
          (allPairs_distinct _ hUnd ab hab)])
    · exact countP_allPairs_involving
        (fun o => decide (subWins jsonDecode stage2_results label_to_model o m
        < subWins jsonDecode stage2_results label_to_model m o)) m _ hUnd hm
  have hloss : (allPairs ((label_to_model.map Prod.snd).dedup)).countP
      (lossP (pairwiseWins jsonDecode stage2_results label_to_model) m)
      = specLosses jsonDecode stage2_results label_to_model m := by
    unfold specLosses
    trans ((allPairs ((label_to_model.map Prod.snd).dedup)).countP (fun ab =>
      if ab.1 = m
      then decide (subWins jsonDecode stage2_results label_to_model m ab.2
        < subWins jsonDecode stage2_results label_to_model ab.2 m)
      else if ab.2 = m
      then decide (subWins jsonDecode stage2_results label_to_model m ab.1
        < subWins jsonDecode stage2_results label_to_model ab.1 m)
      else false))
    · exact List.countP_congr (fun ab hab => by
        rw [lossP_translate jsonDecode stage2_results label_to_model hk hv hr m ab
          (allPairs_distinct _ hUnd ab hab)])
    · exact countP_allPairs_involving
        (fun o => decide (subWins jsonDecode stage2_results label_to_model m o
        < subWins jsonDecode stage2_results label_to_model o m)) m _ hUnd hm
  have htie : (allPairs ((label_to_model.map Prod.snd).dedup)).countP
      (tieP (pairwiseWins jsonDecode stage2_results label_to_model) m)
      = specTies jsonDecode stage2_results label_to_model m := by
    unfold specTies
    trans ((allPairs ((label_to_model.map Prod.snd).dedup)).countP (fun ab =>
      if ab.1 = m
      then decide (subWins jsonDecode stage2_results label_to_model m ab.2
          = subWins jsonDecode stage2_results label_to_model ab.2 m
        ∧ (0 < subWins jsonDecode stage2_results label_to_model m ab.2
          ∨ 0 < subWins jsonDecode stage2_results label_to_model ab.2 m))
      else if ab.2 = m
      then decide (subWins jsonDecode stage2_results label_to_model m ab.1
          = subWins jsonDecode stage2_results label_to_model ab.1 m
        ∧ (0 < subWins jsonDecode stage2_results label_to_model m ab.1
          ∨ 0 < subWins jsonDecode stage2_results label_to_model ab.1 m))
      else false))
    · exact List.countP_congr (fun ab hab => by
        rw [tieP_translate jsonDecode stage2_results label_to_model hk hv hr m ab
          (allPairs_distinct _ hUnd ab hab)])
    · exact countP_allPairs_involving
        (fun o => decide (subWins jsonDecode stage2_results label_to_model m o
          = subWins jsonDecode stage2_results label_to_model o m
        ∧ (0 < subWins jsonDecode stage2_results label_to_model m o
          ∨ 0 < subWins jsonDecode stage2_results label_to_model o m))) m _ hUnd hm
  rw [hwin, hloss, htie]
  show (⟨0 + _, 0 + _, 0 + _⟩ : TStats) = _
  simp only [zero_add]

/-- Claim C1: under the well-formedness the pipeline guarantees (distinct
labels, an injective label-to-model mapping, duplicate-free parsed rankings),
the tournament aggregator decides every unordered pair of distinct models by
sub-wins — a ranker credits a sub-win to the model whose label appears at the
earlier position when both labels are present (`subWins`); strictly more
sub-wins gives one match win and one match loss, equal-and-positive sub-wins
give both a tie, and never-compared pairs contribute nothing — and each entry's
`win_percentage` equals `(wins + 0.5*ties)/(wins+losses+ties)` (0 for a zero
denominator) rounded to 3 decimal places, with `total_matchups` the sum. -/
theorem tournament_pair_decision (jsonDecode : String → Option PyJson)
    (stage2_results : List Stage2Result) (label_to_model : List (String × String))
    (hk : (label_to_model.map Prod.fst).Nodup)
    (hv : ∀ l1 l2 m, (l1, m) ∈ label_to_model → (l2, m) ∈ label_to_model → l1 = l2)
    (hr : ∀ r ∈ stage2_results, (effectiveRanking jsonDecode label_to_model r).Nodup) :
    ∀ e ∈ calculate_tournament_rankings jsonDecode stage2_results label_to_model,
      e.wins = (specWins jsonDecode stage2_results label_to_model e.model : ℚ)
      ∧ e.losses = (specLosses jsonDecode stage2_results label_to_model e.model : ℚ)
      ∧ e.ties = (specTies jsonDecode stage2_results label_to_model e.model : ℚ)
      ∧ e.total_matchups
        = ((specWins jsonDecode stage2_results label_to_model e.model
          + specLosses jsonDecode stage2_results label_to_model e.model
          + specTies jsonDecode stage2_results label_to_model e.model : Nat) : ℤ)
      ∧ e.win_percentage
        = (if specWins jsonDecode stage2_results label_to_model e.model
              + specLosses jsonDecode stage2_results label_to_model e.model
              + specTies jsonDecode stage2_results label_to_model e.model = 0
          then 0
          else pyRound
            (((specWins jsonDecode stage2_results label_to_model e.model : ℚ)
              + 0.5 * (specTies jsonDecode stage2_results label_to_model e.model : ℚ))
              / ((specWins jsonDecode stage2_results label_to_model e.model : ℚ)
                + (specLosses jsonDecode stage2_results label_to_model e.model : ℚ)
                + (specTies jsonDecode stage2_results label_to_model e.model : ℚ))) 3) := by
  intro e he
  unfold calculate_tournament_rankings at he
  by_cases hlen : ((label_to_model.map Prod.snd).dedup).length < 2
  · rw [if_pos hlen] at he
    rw [List.mem_map] at he
    obtain ⟨m, hmU, rfl⟩ := he
    have hU1 : (label_to_model.map Prod.snd).dedup = [m] := by
      have hpos : 0 < ((label_to_model.map Prod.snd).dedup).length :=
        List.length_pos.2 (fun h => by rw [h] at hmU; exact List.not_mem_nil m hmU)
      have h1 : ((label_to_model.map Prod.snd).dedup).length = 1 := by omega
      obtain ⟨a, ha⟩ := List.length_eq_one.1 h1
      rw [ha] at hmU ⊢
      have : m = a := by simpa using hmU
      rw [this]
    have hw : specWins jsonDecode stage2_results label_to_model m = 0 := by
      unfold specWins
      rw [hU1]
      simp
    have hl : specLosses jsonDecode stage2_results label_to_model m = 0 := by
      unfold specLosses
      rw [hU1]
      simp
    have ht : specTies jsonDecode stage2_results label_to_model m = 0 := by
      unfold specTies
      rw [hU1]
      simp
    refine ⟨?_, ?_, ?_, ?_, ?_⟩ <;> simp [hw, hl, ht]
  · rw [if_neg hlen, List.mem_mergeSort, List.mem_map] at he
    obtain ⟨m, hmU, rfl⟩ := he
    rw [statsFold_spec jsonDecode stage2_results label_to_model hk hv hr m hmU]
    have hcast : ((specWins jsonDecode stage2_results label_to_model m : ℚ)
        + (specLosses jsonDecode stage2_results label_to_model m : ℚ)
        + (specTies jsonDecode stage2_results label_to_model m : ℚ))
        = ((specWins jsonDecode stage2_results label_to_model m
          + specLosses jsonDecode stage2_results label_to_model m
          + specTies jsonDecode stage2_results label_to_model m : Nat) : ℚ) := by
      push_cast
      ring
    refine ⟨rfl, rfl, rfl, ?_, ?_⟩
    · show ⌊(specWins jsonDecode stage2_results label_to_model m : ℚ)
        + (specLosses jsonDecode stage2_results label_to_model m : ℚ)
        + (specTies jsonDecode stage2_results label_to_model m : ℚ)⌋ = _
      rw [hcast, Int.floor_natCast]
    · show (if 0 < (specWins jsonDecode stage2_results label_to_model m : ℚ)
          + (specLosses jsonDecode stage2_results label_to_model m : ℚ)
          + (specTies jsonDecode stage2_results label_to_model m : ℚ) then _ else 0) = _
      by_cases hz : specWins jsonDecode stage2_results label_to_model m
          + specLosses jsonDecode stage2_results label_to_model m
          + specTies jsonDecode stage2_results label_to_model m = 0
      · rw [if_pos hz, if_neg]
        rw [hcast, hz]
        simp
      · rw [if_neg hz, if_pos]
        rw [hcast]
        have : 0 < specWins jsonDecode stage2_results label_to_model m
            + specLosses jsonDecode stage2_results label_to_model m
            + specTies jsonDecode stage2_results label_to_model m := by omega
        exact_mod_cast this

/-- Witness for claim C1's theorem at a concrete input. -/
theorem tournament_pair_decision_witness :
    (⟨"X", 0, 0, 0, 0, 0⟩ : TournamentEntry).wins
      = (specWins (fun _ => none) [] [("Response A", "X")]
          (⟨"X", 0, 0, 0, 0, 0⟩ : TournamentEntry).model : ℚ) :=
  (tournament_pair_decision (fun _ => none) [] [("Response A", "X")]
    (by decide)
    (by
      intro l1 l2 m h1 h2
      simp only [List.mem_singleton, Prod.mk.injEq] at h1 h2
      rw [h1.1, h2.1])
    (by
      intro r hr2
      exact absurd hr2 (List.not_mem_nil r))
    ⟨"X", 0, 0, 0, 0, 0⟩ (by decide)).1

theorem tournament_sort_trans (x y z : TournamentEntry)
    (hxy : (y.win_percentage < x.win_percentage
      ∨ (x.win_percentage = y.win_percentage ∧ x.losses ≤ y.losses)))
    (hyz : (z.win_percentage < y.win_percentage
      ∨ (y.win_percentage = z.win_percentage ∧ y.losses ≤ z.losses))) :
    z.win_percentage < x.win_percentage
      ∨ (x.win_percentage = z.win_percentage ∧ x.losses ≤ z.losses) := by
  rcases hxy with h1 | ⟨h1, h1l⟩ <;> rcases hyz with h2 | ⟨h2, h2l⟩
  · exact Or.inl (lt_trans h2 h1)
  · exact Or.inl (h2 ▸ h1)
  · exact Or.inl (h1 ▸ h2)
  · exact Or.inr ⟨h1.trans h2, le_trans h1l h2l⟩

theorem tournament_sort_total (x y : TournamentEntry) :
    (decide (y.win_percentage < x.win_percentage
        ∨ (x.win_percentage = y.win_percentage ∧ x.losses ≤ y.losses))
      || decide (x.win_percentage < y.win_percentage
        ∨ (y.win_percentage = x.win_percentage ∧ y.losses ≤ x.losses))) = true := by
  rcases lt_trichotomy x.win_percentage y.win_percentage with h | h | h
  · rw [decide_eq_true (Or.inl h : x.win_percentage < y.win_percentage
      ∨ (y.win_percentage = x.win_percentage ∧ y.losses ≤ x.losses)), Bool.or_true]
  · rcases le_total x.losses y.losses with hl | hl
    · rw [decide_eq_true (Or.inr ⟨h, hl⟩ : y.win_percentage < x.win_percentage
        ∨ (x.win_percentage = y.win_percentage ∧ x.losses ≤ y.losses)), Bool.true_or]
    · rw [decide_eq_true (Or.inr ⟨h.symm, hl⟩ : x.win_percentage < y.win_percentage
        ∨ (y.win_percentage = x.win_percentage ∧ y.losses ≤ x.losses)), Bool.or_true]
  · rw [decide_eq_true (Or.inl h : y.win_percentage < x.win_percentage
      ∨ (x.win_percentage = y.win_percentage ∧ x.losses ≤ y.losses)), Bool.true_or]

/-- Claim C5: the tournament table has exactly one entry per distinct model in
the label-to-model value set (including models with zero matchups, whose
win percentage is 0), and it is sorted by win percentage descending with ties
broken by ascending loss count. -/
theorem tournament_universe_and_sort (jsonDecode : String → Option PyJson)
    (stage2_results : List Stage2Result) (label_to_model : List (String × String)) :
    (((calculate_tournament_rankings jsonDecode stage2_results label_to_model).map
        TournamentEntry.model).Nodup)
      ∧ (∀ m, m ∈ (calculate_tournament_rankings jsonDecode stage2_results
            label_to_model).map TournamentEntry.model
          ↔ m ∈ label_to_model.map Prod.snd)
      ∧ (∀ e ∈ calculate_tournament_rankings jsonDecode stage2_results label_to_model,
          e.total_matchups = 0 → e.win_percentage = 0)
      ∧ (calculate_tournament_rankings jsonDecode stage2_results
          label_to_model).Pairwise (fun x y =>
            y.win_percentage < x.win_percentage
            ∨ (x.win_percentage = y.win_percentage ∧ x.losses ≤ y.losses)) := by
  unfold calculate_tournament_rankings
  by_cases hlen : ((label_to_model.map Prod.snd).dedup).length < 2
  · rw [if_pos hlen]
    refine ⟨?_, ?_, ?_, ?_⟩
    · rw [List.map_map]
      show ((label_to_model.map Prod.snd).dedup.map (fun m => m)).Nodup
      rw [List.map_id']
      exact List.nodup_dedup _
    · intro m
      rw [List.map_map]
      show m ∈ (label_to_model.map Prod.snd).dedup.map (fun m => m) ↔ _
      rw [List.map_id']
      exact List.mem_dedup
    · intro e he _
      rw [List.mem_map] at he
      obtain ⟨m, -, rfl⟩ := he
      rfl
    · rcases hU : (label_to_model.map Prod.snd).dedup with - | ⟨a, tail⟩
      · simp
      · rcases tail with - | ⟨b, rest⟩
        · simp
        · rw [hU] at hlen
          exact absurd hlen (by simp)
  · rw [if_neg hlen]
    refine ⟨?_, ?_, ?_, ?_⟩
    · refine (List.Perm.map TournamentEntry.model (List.mergeSort_perm _ _)).nodup_iff.2 ?_
      rw [List.map_map]
      show ((label_to_model.map Prod.snd).dedup.map (fun m => m)).Nodup
      rw [List.map_id']
      exact List.nodup_dedup _
    · intro m
      rw [(List.Perm.map TournamentEntry.model (List.mergeSort_perm _ _)).mem_iff,
        List.map_map]
      show m ∈ (label_to_model.map Prod.snd).dedup.map (fun m => m) ↔ _
      rw [List.map_id']
      exact List.mem_dedup
    · intro e he hz
      rw [List.mem_mergeSort, List.mem_map] at he
      obtain ⟨m, hmU, rfl⟩ := he
      have hdist : ∀ ab ∈ allPairs ((label_to_model.map Prod.snd).dedup),
          (normPair ab).1 ≠ (normPair ab).2 := fun ab hab =>
        normPair_ne ab (allPairs_distinct _ (List.nodup_dedup _) ab hab)
      rw [statsFold_eq_foldl _ _ _ _
          (nodup_normPair_allPairs _ (List.nodup_dedup _))
          (fun ab _ => List.not_mem_nil _),
        foldl_statsStep_components _ m _ hdist] at hz ⊢
      dsimp only at hz ⊢
      simp only [zero_add] at hz ⊢
      set cw := (allPairs ((label_to_model.map Prod.snd).dedup)).countP
        (winP (pairwiseWins jsonDecode stage2_results label_to_model) m) with hcw
      set cl := (allPairs ((label_to_model.map Prod.snd).dedup)).countP
        (lossP (pairwiseWins jsonDecode stage2_results label_to_model) m) with hcl
      set ct := (allPairs ((label_to_model.map Prod.snd).dedup)).countP
        (tieP (pairwiseWins jsonDecode stage2_results label_to_model) m) with hct
      have hsum : ((cw + cl + ct : ℕ) : ℚ) = (cw : ℚ) + (cl : ℚ) + (ct : ℚ) := by
        push_cast
        ring
      rw [← hsum] at hz
      rw [Int.floor_natCast] at hz
      have hz2 : cw + cl + ct = 0 := by exact_mod_cast hz
      have hnot : ¬ (0 : ℚ) < (cw : ℚ) + (cl : ℚ) + (ct : ℚ) := by
        rw [← hsum, hz2]
        simp
      rw [if_neg hnot]
    · exact (List.sorted_mergeSort
        (fun a b c hab hbc => decide_eq_true
          (tournament_sort_trans a b c (of_decide_eq_true hab) (of_decide_eq_true hbc)))
        tournament_sort_total _).imp (fun h => of_decide_eq_true h)

theorem mem_calculate_aggregate_iff (jsonDecode : String → Option PyJson)
    (stage2_results : List Stage2Result) (label_to_model : List (String × String))
    (m : String) :
    m ∈ (calculate_aggregate_rankings jsonDecode stage2_results label_to_model).map
        AggregateEntry.model
      ↔ specPositions jsonDecode stage2_results label_to_model m ≠ [] := by
  rw [calculate_aggregate_eq_sort,
    (List.Perm.map AggregateEntry.model (List.mergeSort_perm _ _)).mem_iff,
    aggUnsorted_eq_map, List.map_map]
  constructor
  · intro hmem
    rw [List.mem_map] at hmem
    obtain ⟨kv, hkv, hkm⟩ := hmem
    rw [List.mem_filter] at hkv
    have h2 := aggregatePositions_entry_val jsonDecode stage2_results label_to_model
      kv hkv.1
    have hne : kv.2 ≠ [] := by simpa using hkv.2
    have hm : kv.1 = m := hkm
    rw [← hm, ← h2]
    exact hne
  · intro hne
    have hsome := (isSome_aggregatePositions jsonDecode stage2_results
      label_to_model m).2 hne
    rw [Option.isSome_iff_exists] at hsome
    obtain ⟨v, hv⟩ := hsome
    have hmemA := mem_of_assocFind_eq_some hv
    have hval : v = specPositions jsonDecode stage2_results label_to_model m := by
      have hgd := assocFind_aggregatePositions jsonDecode stage2_results
        label_to_model m
      rw [hv] at hgd
      exact ((Option.getD_some ▸ hgd) : v = _)
    rw [List.mem_map]
    refine ⟨(m, v), ?_, rfl⟩
    rw [List.mem_filter]
    refine ⟨hmemA, ?_⟩
    simp only [decide_eq_true_eq]
    rw [hval]
    exact hne

theorem mem_tournament_models (jsonDecode : String → Option PyJson)
    (stage2_results : List Stage2Result) (label_to_model : List (String × String))
    (m : String) :
    m ∈ (calculate_tournament_rankings jsonDecode stage2_results label_to_model).map
        TournamentEntry.model
      ↔ m ∈ label_to_model.map Prod.snd := by
  unfold calculate_tournament_rankings
  by_cases hlen : ((label_to_model.map Prod.snd).dedup).length < 2
  · rw [if_pos hlen, List.map_map]
    show m ∈ (label_to_model.map Prod.snd).dedup.map (fun m => m) ↔ _
    rw [List.map_id']
    exact List.mem_dedup
  · rw [if_neg hlen,
      (List.Perm.map TournamentEntry.model (List.mergeSort_perm _ _)).mem_iff,
      List.map_map]
    show m ∈ (label_to_model.map Prod.snd).dedup.map (fun m => m) ↔ _
    rw [List.map_id']
    exact List.mem_dedup

/-- Counterexample to claim C4 as stated: a stage-2 result with
`parsed_ranking = []` whose raw ranking text decodes to a valid complete
ranking is NOT a non-vote — both aggregators fall back to re-parsing the raw
text, so the lone empty-parsed ranker still populates the mean-position table
("X" appears, with positions recorded), where the claim requires an empty
table. -/
theorem skip_empty_vote_counterexample :
    "X" ∈ (calculate_aggregate_rankings
        (fun _ => some (PyJson.obj [("final_ranking",
          PyJson.arr [PyJson.str "Response A", PyJson.str "Response B"])]))
        [⟨"ranker", "text", []⟩]
        [("Response A", "X"), ("Response B", "Y")]).map AggregateEntry.model :=
  (mem_calculate_aggregate_iff _ _ _ _).2 (by decide)

theorem aggregatePositions_skip (jsonDecode : String → Option PyJson)
    (l1 l2 : List Stage2Result) (r : Stage2Result)
    (label_to_model : List (String × String))
    (hr : effectiveRanking jsonDecode label_to_model r = []) :
    aggregatePositions jsonDecode (l1 ++ r :: l2) label_to_model
      = aggregatePositions jsonDecode (l1 ++ l2) label_to_model := by
  unfold aggregatePositions
  rw [List.foldl_append, List.foldl_append, List.foldl_cons]
  congr 1
  simp [aggStep, hr]

theorem pairwiseWins_skip (jsonDecode : String → Option PyJson)
    (l1 l2 : List Stage2Result) (r : Stage2Result)
    (label_to_model : List (String × String))
    (hr : effectiveRanking jsonDecode label_to_model r = []) :
    pairwiseWins jsonDecode (l1 ++ r :: l2) label_to_model
      = pairwiseWins jsonDecode (l1 ++ l2) label_to_model := by
  unfold pairwiseWins
  rw [List.foldl_append, List.foldl_append, List.foldl_cons]
  congr 1
  simp [rankerVotes, hr]

/-- C4 (amended): a stage-2 result whose `parsed_ranking` is empty AND whose
raw ranking text also fails the strict fallback parse is a true non-vote: both
`calculate_aggregate_rankings` and `calculate_tournament_rankings` return
exactly the tables they would return with that result removed, and the
tournament table still lists every model of the label map's value set (in
particular the skipped ranker's own model). -/
theorem skip_empty_vote_amended (jsonDecode : String → Option PyJson)
    (l1 l2 : List Stage2Result) (r : Stage2Result)
    (label_to_model : List (String × String))
    (hp : r.parsed_ranking = [])
    (hf : parse_ranking_from_text jsonDecode r.ranking
      (some (expectedLabelSet label_to_model)) = []) :
    calculate_aggregate_rankings jsonDecode (l1 ++ r :: l2) label_to_model
        = calculate_aggregate_rankings jsonDecode (l1 ++ l2) label_to_model
      ∧ calculate_tournament_rankings jsonDecode (l1 ++ r :: l2) label_to_model
        = calculate_tournament_rankings jsonDecode (l1 ++ l2) label_to_model
      ∧ ∀ m ∈ label_to_model.map Prod.snd,
          m ∈ (calculate_tournament_rankings jsonDecode (l1 ++ r :: l2)
            label_to_model).map TournamentEntry.model := by
  have hr : effectiveRanking jsonDecode label_to_model r = [] := by
    simp [effectiveRanking, hp, hf]
  refine ⟨?_, ?_, ?_⟩
  · unfold calculate_aggregate_rankings
    rw [aggregatePositions_skip jsonDecode l1 l2 r label_to_model hr]
  · unfold calculate_tournament_rankings
    rw [pairwiseWins_skip jsonDecode l1 l2 r label_to_model hr]
  · intro m hm
    exact (mem_tournament_models jsonDecode (l1 ++ r :: l2) label_to_model m).2 hm

theorem skip_empty_vote_amended_witness :
    calculate_aggregate_rankings (fun _ => none)
        [⟨"ranker", "bad", []⟩] [("Response A", "X")]
      = calculate_aggregate_rankings (fun _ => none) [] [("Response A", "X")] :=
  (skip_empty_vote_amended (fun _ => none) [] [] ⟨"ranker", "bad", []⟩
    [("Response A", "X")] rfl rfl).1

/-- The resolved council configuration: the value set of
`config.get_council_config` (its file I/O is abstracted into this record, also
the shape of `get_effective_models`' result dict). -/
structure CouncilConfig where
  council_models : List String
  chairman_model : String
  web_search_enabled : Bool

/-- Embedding of `config.get_effective_models`: fill unset arguments from the
stored configuration, then apply the `:online` variant to every model when web
search is enabled. -/
def get_effective_models (config : CouncilConfig)
    (council_models : Option (List String)) (chairman_model : Option String)
    (web_search_enabled : Option Bool) : CouncilConfig :=
  let cms := council_models.getD config.council_models
  let cm := chairman_model.getD config.chairman_model
  let ws := web_search_enabled.getD config.web_search_enabled
  if ws then ⟨cms.map apply_online_variant, apply_online_variant cm, ws⟩
  else ⟨cms, cm, ws⟩

/-- A stage-1 success row `{"model": model, "response": response.get("content", "")}`;
the success dict always carries a `"content"` key, so the `.get` returns the
stored (possibly null) content. -/
structure Stage1Result where
  model : String
  response : Option PyJson

/-- Embedding of `openrouter.is_error` on values produced by
`query_models_parallel` (which never yields Python `None`). -/
def is_error : QueryResult → Bool
  | QueryResult.err _ => true
  | QueryResult.ok _ _ => false

/-- The result-partition loop of `council.stage1_collect_responses`: walk the
parallel-query dict in insertion order, appending errors (`to_dict` is the
identity on the `ModelQueryError` record) and successes to their lists.  (The
source's fallback dict for a `None` response is unreachable here: every value
of `query_models_parallel` is a `query_model` result.) -/
def stage1_collect_responses (models : List String) (outcome : Nat → QueryResult) :
    List Stage1Result × List ModelQueryError :=
  (query_models_parallel models outcome).foldl (fun acc kv =>
    if is_error kv.2 then
      match kv.2 with
      | QueryResult.err e => (acc.1, acc.2 ++ [e])
      | QueryResult.ok c _ => (acc.1 ++ [⟨kv.1, c⟩], acc.2)
    else
      match kv.2 with
      | QueryResult.err e => (acc.1, acc.2 ++ [e])
      | QueryResult.ok c _ => (acc.1 ++ [⟨kv.1, c⟩], acc.2))
    ([], [])

/-- Embedding of `council._summarize_errors`: group the error dicts by
`error_type`, render one phrase per present kind in the source's fixed order,
join with `"; "`, and fall back to `"Please try again."` when no phrase
rendered (`e.get("model", "unknown")` is the stored model, never absent; the
`getD` covers a stored null). -/
def summarize_errors (errors : List ModelQueryError) : String :=
  if errors = [] then "Please try again."
  else
    let summaries :=
      (if errors.filter (fun e => e.error_type = "auth") ≠ [] then
        ["API key issue - please check your OPENROUTER_API_KEY"] else [])
      ++ (if errors.filter (fun e => e.error_type = "payment") ≠ [] then
        ["Payment required - please add credits to OpenRouter"] else [])
      ++ (if errors.filter (fun e => e.error_type = "rate_limit") ≠ [] then
        [toString (errors.filter (fun e => e.error_type = "rate_limit")).length
          ++ " model(s) rate limited"] else [])
      ++ (if errors.filter (fun e => e.error_type = "not_found") ≠ [] then
        ["Model(s) not found: " ++ String.intercalate ", "
          ((errors.filter (fun e => e.error_type = "not_found")).map
            (fun e => e.model.getD "unknown"))] else [])
      ++ (if errors.filter (fun e => e.error_type = "timeout") ≠ [] then
        [toString (errors.filter (fun e => e.error_type = "timeout")).length
          ++ " model(s) timed out"] else [])
      ++ (if errors.filter (fun e => e.error_type = "server") ≠ [] then
        ["OpenRouter server error"] else [])
    if summaries ≠ [] then String.intercalate "; " summaries
    else "Please try again."

/-- The summary the SPEC's words describe (second definition, for comparison
with the source's `summarize_errors`): group the collected errors by error
kind, render the kind-specific phrase for each kind that occurred, in the fixed
kind order, and join the phrases with `"; "`; when nothing rendered, the
generic `"Please try again."`. -/
def spec_error_summary (errors : List ModelQueryError) : String :=
  let phrase := fun (k : String) =>
    let es := errors.filter (fun e => e.error_type = k)
    if es = [] then none
    else some (
      if k = "auth" then "API key issue - please check your OPENROUTER_API_KEY"
      else if k = "payment" then "Payment required - please add credits to OpenRouter"
      else if k = "rate_limit" then toString es.length ++ " model(s) rate limited"
      else if k = "not_found" then "Model(s) not found: " ++ String.intercalate ", "
        (es.map (fun e => e.model.getD "unknown"))
      else if k = "timeout" then toString es.length ++ " model(s) timed out"
      else "OpenRouter server error")
  let summaries :=
    ["auth", "payment", "rate_limit", "not_found", "timeout", "server"].filterMap phrase
  if summaries = [] then "Please try again." else String.intercalate "; " summaries

/-- The synthesized chairman-shaped result `{"model": ..., "response": ...}`. -/
structure Stage3Result where
  model : String
  response : String
deriving DecidableEq

/-- The pipeline metadata dict; an `Option` field is `none` when the source's
dict omits the key (the early-return branches build a metadata dict holding
only `"errors"`).  `errors` groups the per-stage lists, itself `none` when all
three are empty. -/
structure Metadata where
  label_to_model : Option (List (String × String))
  aggregate_rankings : Option (List AggregateEntry)
  tournament_rankings : Option (List TournamentEntry)
  council_models : Option (List String)
  chairman_model : Option String
  web_search_enabled : Option Bool
  errors : Option (List ModelQueryError × List ModelQueryError × List ModelQueryError)
deriving DecidableEq

/-- Embedding of `council.run_full_council`.  The effectful later stages are
oracle parameters: `stage1Outcome` indexes the parallel stage-1 query results
(as in `query_models_parallel`), while `stage2` and `stage3` stand for
`stage2_collect_rankings` (returning rankings, the label map and errors) and
`stage3_synthesize_final` (returning the chairman result and errors), applied
to exactly the arguments the source passes. -/
def run_full_council (jsonDecode : String → Option PyJson)
    (config : CouncilConfig) (stage1Outcome : Nat → QueryResult)
    (stage2 : String → List Stage1Result → List String →
      List Stage2Result × List (String × String) × List ModelQueryError)
    (stage3 : String → List Stage1Result → List Stage2Result →
      List (String × String) → List AggregateEntry → List TournamentEntry →
      String → Stage3Result × List ModelQueryError)
    (messages : List Message)
    (council_models : Option (List String)) (chairman_model : Option String)
    (web_search_enabled : Option Bool) :
    List Stage1Result × List Stage2Result × Stage3Result × Metadata :=
  if messages.isEmpty then
    ([], [], ⟨"error", "No messages provided. Please enter a query."⟩,
      ⟨none, none, none, none, none, none,
        some ([⟨"validation", "Empty messages list", none, none⟩], [], [])⟩)
  else
    let effective := get_effective_models config council_models chairman_model
      web_search_enabled
    let cms := effective.council_models
    let cm := effective.chairman_model
    let ws := effective.web_search_enabled
    let current_query := -- `messages[-1]["content"]`; the list is non-empty here
      match messages.getLast? with
      | some m => m.content
      | none => ""
    let s1 := stage1_collect_responses cms stage1Outcome
    let stage1_results := s1.1
    let stage1_errors := s1.2
    if stage1_results.isEmpty then
      ([], [],
        ⟨"error", "All models failed to respond. " ++ summarize_errors stage1_errors⟩,
        ⟨none, none, none, none, none, none, some (stage1_errors, [], [])⟩)
    else
      let s2 := stage2 current_query stage1_results cms
      let stage2_results := s2.1
      let label_to_model := s2.2.1
      let stage2_errors := s2.2.2
      let aggregate_rankings :=
        calculate_aggregate_rankings jsonDecode stage2_results label_to_model
      let tournament_rankings :=
        calculate_tournament_rankings jsonDecode stage2_results label_to_model
      let s3 := stage3 current_query stage1_results stage2_results label_to_model
        aggregate_rankings tournament_rankings cm
      let stage3_result := s3.1
      let stage3_errors := s3.2
      (stage1_results, stage2_results, stage3_result,
        ⟨some label_to_model, some aggregate_rankings, some tournament_rankings,
          some cms, some cm, some ws,
          if stage1_errors ≠ [] ∨ stage2_errors ≠ [] ∨ stage3_errors ≠ [] then
            some (stage1_errors, stage2_errors, stage3_errors)
          else none⟩)

theorem summarize_errors_eq_spec (errors : List ModelQueryError) :
    summarize_errors errors = spec_error_summary errors := by
  unfold summarize_errors spec_error_summary
  by_cases he : errors = []
  · subst he
    rfl
  · rw [if_neg he]
    simp only [List.filterMap_cons, List.filterMap_nil]
    by_cases h1 : errors.filter (fun e => e.error_type = "auth") = [] <;>
      by_cases h2 : errors.filter (fun e => e.error_type = "payment") = [] <;>
      by_cases h3 : errors.filter (fun e => e.error_type = "rate_limit") = [] <;>
      by_cases h4 : errors.filter (fun e => e.error_type = "not_found") = [] <;>
      by_cases h5 : errors.filter (fun e => e.error_type = "timeout") = [] <;>
      by_cases h6 : errors.filter (fun e => e.error_type = "server") = [] <;>
      simp [h1, h2, h3, h4, h5, h6]

/-- Claim C8: for every non-empty message history, when stage 1 yields zero
successful responses the pipeline short-circuits before stages 2 and 3 (the
result is the same for every stage-2/stage-3 behaviour): it returns empty
stage-1 and stage-2 result lists, a stage-3-shaped result with model `"error"`
whose response is `"All models failed to respond. "` followed by the summary
obtained by grouping the collected stage-1 errors by error kind and joining the
kind phrases with `"; "`, and metadata whose stage-1 error list holds every
collected failure while its stage-2 and stage-3 lists are empty. -/
theorem stage1_total_failure_short_circuit (jsonDecode : String → Option PyJson)
    (config : CouncilConfig) (stage1Outcome : Nat → QueryResult)
    (stage2 : String → List Stage1Result → List String →
      List Stage2Result × List (String × String) × List ModelQueryError)
    (stage3 : String → List Stage1Result → List Stage2Result →
      List (String × String) → List AggregateEntry → List TournamentEntry →
      String → Stage3Result × List ModelQueryError)
    (messages : List Message)
    (council_models : Option (List String)) (chairman_model : Option String)
    (web_search_enabled : Option Bool)
    (hne : messages ≠ [])
    (hfail : (stage1_collect_responses
        (get_effective_models config council_models chairman_model
          web_search_enabled).council_models stage1Outcome).1 = []) :
    run_full_council jsonDecode config stage1Outcome stage2 stage3 messages
        council_models chairman_model web_search_enabled
      = ([], [],
          ⟨"error", "All models failed to respond. "
            ++ spec_error_summary (stage1_collect_responses
              (get_effective_models config council_models chairman_model
                web_search_enabled).council_models stage1Outcome).2⟩,
          ⟨none, none, none, none, none, none,
            some ((stage1_collect_responses
              (get_effective_models config council_models chairman_model
                web_search_enabled).council_models stage1Outcome).2, [], [])⟩) := by
  unfold run_full_council
  rw [if_neg (by simpa using hne)]
  dsimp only
  rw [hfail]
  simp only [List.isEmpty_nil, if_true]
  rw [summarize_errors_eq_spec]

theorem stage1_total_failure_short_circuit_witness :
    run_full_council (fun _ => none) ⟨["m1"], "chair", false⟩
        (fun _ => QueryResult.err
          ⟨"timeout", "Request timed out after 120s.", none, some "m1"⟩)
        (fun _ _ _ => ([], [], [])) (fun _ _ _ _ _ _ _ => (⟨"", ""⟩, []))
        [⟨"user", "hi"⟩] none none none
      = ([], [],
          ⟨"error", "All models failed to respond. "
            ++ spec_error_summary
              [⟨"timeout", "Request timed out after 120s.", none, some "m1"⟩]⟩,
          ⟨none, none, none, none, none, none,
            some ([⟨"timeout", "Request timed out after 120s.", none, some "m1"⟩],
              [], [])⟩) :=
  stage1_total_failure_short_circuit (fun _ => none) ⟨["m1"], "chair", false⟩
    (fun _ => QueryResult.err
      ⟨"timeout", "Request timed out after 120s.", none, some "m1"⟩)
    (fun _ _ _ => ([], [], [])) (fun _ _ _ _ _ _ _ => (⟨"", ""⟩, []))
    [⟨"user", "hi"⟩] none none none (List.cons_ne_nil _ _) rfl
